import Mathlib

/-!
# Verification of the sandbox-platform control plane

A shallow embedding of the backend services of the sandbox platform
(environment versioning, sandbox lifecycle, secrets vault, log pipeline,
docker log demultiplexing, and log redaction), together with theorems
settling the specified properties against the embedded code.

Conventions:
* database rows are Lean structures; the store is a record of row lists;
* machine timestamps are `Nat` (milliseconds), decimal cpu counts are `Rat`;
* JSON object columns are association lists `List (String × String)`;
* fallible service calls return `Except SvcErr α` together with the updated
  store and the list of observable external effects (container-runtime calls
  and provisioner spawns) emitted by the call, in order.
-/

namespace SandboxPlatform

/-- `status` column of a sandbox row (`types.ts`, `SandboxStatus`). -/
inductive SandboxStatus
  | pending | running | stopped | error | expired
  deriving DecidableEq, Repr

/-- `phase` column of a sandbox row (`types.ts`, `SandboxPhase`). -/
inductive SandboxPhase
  | creating | starting | healthy | stopping | stopped | failed
  deriving DecidableEq, Repr

/-- A container/host port pair (`types.ts`, `PortMapping`). -/
structure PortMapping where
  container : Nat
  host : Nat
  deriving DecidableEq, Repr

/-- A row of the `environments` table. -/
structure EnvRow where
  id : Nat
  user_id : Nat
  name : String
  current_version_id : Option Nat
  created_at : Nat
  updated_at : Nat
  deriving DecidableEq, Repr

/-- A row of the `environment_versions` table.  `image` and `dockerfile`
are nullable columns; `build_files`, `env`, `secrets`, `mounts` are JSONB
objects modelled as association lists; `command` is a nullable JSONB
array. -/
structure EnvVersionRow where
  id : Nat
  environment_id : Nat
  version : Nat
  image : Option String
  dockerfile : Option String
  build_files : List (String × String)
  command : Option (List String)
  cpu : Rat
  memory : Nat
  ports : List PortMapping
  env : List (String × String)
  secrets : List (String × String)
  mounts : List (String × String)
  created_at : Nat
  deriving DecidableEq, Repr

/-- A row of the `sandboxes` table. -/
structure SandboxRow where
  id : Nat
  user_id : Nat
  environment_id : Nat
  environment_version_id : Nat
  name : String
  container_id : Option Nat
  status : SandboxStatus
  phase : SandboxPhase
  ports : List PortMapping
  created_at : Nat
  started_at : Option Nat
  stopped_at : Option Nat
  expires_at : Option Nat
  provision_progress : Nat
  provision_status : String
  deriving DecidableEq, Repr

/-- A row of the `sandbox_logs` table (`type` is `"stdout"`/`"stderr"`). -/
structure SandboxLogRow where
  sandbox_id : Nat
  log_type : String
  text : String
  timestamp : Nat
  deriving DecidableEq, Repr

/-- The transactional store: the tables the embedded services touch. -/
structure Store where
  environments : List EnvRow
  versions : List EnvVersionRow
  sandboxes : List SandboxRow
  logs : List SandboxLogRow
  deriving DecidableEq, Repr

/-- Observable external effects of a service call: container-runtime calls
(`docker.ts`) and asynchronous provisioner spawns. -/
inductive Effect
  | dockerCreate (name : String)
  | dockerStart (cid : Nat)
  | dockerStop (cid : Nat)
  | dockerRestart (cid : Nat)
  | dockerRemove (cid : Nat)
  | spawnProvisioner (sid : Nat)
  deriving DecidableEq, Repr

/-- Error taxonomy of the embedded services (`NotFoundError`,
`QuotaExceededError`, plain `Error`). -/
inductive SvcErr
  | notFound (msg : String)
  | quotaExceeded (msg : String)
  | validation (msg : String)
  | conflict (msg : String)
  | other (msg : String)
  deriving DecidableEq, Repr

end SandboxPlatform

namespace SandboxPlatform

/-! ## Secrets vault (`SecretsService.ts`)

`SecretsService.encrypt` draws a fresh 24-byte nonce, seals the plaintext
with `nacl.secretbox` (XSalsa20-Poly1305) under the process master key and
stores `base64(nonce ∥ box)`; `decrypt` splits the nonce back off, opens the
box and throws when opening fails.  The byte strings are modelled as
`List Nat`; the base64 transport encoding (a bijection between byte strings
and their stored text) is elided, so tampering is stated at the byte level,
exactly as the repository's own test corrupts `combined` bytes after
decoding. -/

/-- Injective encoding of a byte list into one natural, via `Nat.pair`. -/
def encL : List Nat → Nat
  | [] => 0
  | a :: l => Nat.pair a (encL l) + 1

theorem encL_injective : Function.Injective encL := by
  intro x
  induction x with
  | nil => intro y h; cases y with
    | nil => rfl
    | cons b t => simp [encL] at h
  | cons a l ih =>
    intro y h
    cases y with
    | nil => simp [encL] at h
    | cons b t =>
      simp only [encL, Nat.add_right_cancel_iff] at h
      have h2 := Nat.pair_eq_pair.mp h
      rw [h2.1, ih h2.2]

/-- Injective encoding of the (key, nonce, message) triple into one
natural; stands for the unforgeable Poly1305 authenticator of the
idealized primitive. -/
def encTriple (key nonce m : List Nat) : Nat :=
  Nat.pair (encL key) (Nat.pair (encL nonce) (encL m))

theorem encTriple_inj {k n m k' n' m' : List Nat}
    (h : encTriple k n m = encTriple k' n' m') : k = k' ∧ n = n' ∧ m = m' := by
  unfold encTriple at h
  have h1 := Nat.pair_eq_pair.mp h
  have h2 := Nat.pair_eq_pair.mp h1.2
  exact ⟨encL_injective h1.1, encL_injective h2.1, encL_injective h2.2⟩

/-- Idealized model of `nacl.secretbox`: an authenticated-encryption
primitive.  The layout follows the library (a 16-byte overhead block in
front of a ciphertext of the message's length); authentication is
idealized as perfect — the first overhead byte is an unforgeable
authenticator of (key, nonce, message), the ciphertext carries the message
symbolically (confidentiality is not at issue in the verified claims). -/
def secretbox (m nonce key : List Nat) : List Nat :=
  encTriple key nonce m :: (List.replicate 15 0 ++ m)

/-- Idealized model of `nacl.secretbox.open`: succeeds exactly on outputs
of `secretbox` under the same nonce and key. -/
def secretboxOpen (box nonce key : List Nat) : Option (List Nat) :=
  match box with
  | t :: rest =>
    if rest.take 15 = List.replicate 15 0 ∧ 15 ≤ rest.length ∧
        t = encTriple key nonce (rest.drop 15) then
      some (rest.drop 15)
    else none
  | [] => none

theorem secretboxOpen_cons (t : Nat) (rest nonce key : List Nat) :
    secretboxOpen (t :: rest) nonce key =
      if rest.take 15 = List.replicate 15 0 ∧ 15 ≤ rest.length ∧
          t = encTriple key nonce (rest.drop 15) then
        some (rest.drop 15)
      else none := rfl

theorem secretboxOpen_sound {box nonce key m : List Nat}
    (h : secretboxOpen box nonce key = some m) : box = secretbox m nonce key := by
  cases box with
  | nil => simp [secretboxOpen] at h
  | cons t rest =>
    simp only [secretboxOpen] at h
    by_cases hc : rest.take 15 = List.replicate 15 0 ∧ 15 ≤ rest.length ∧
        t = encTriple key nonce (rest.drop 15)
    · rw [if_pos hc, Option.some.injEq] at h
      subst h
      unfold secretbox
      rw [hc.2.2]
      rw [← hc.1, List.take_append_drop]
    · rw [if_neg hc] at h
      exact absurd h (by simp)

theorem secretboxOpen_roundtrip (m nonce key : List Nat) :
    secretboxOpen (secretbox m nonce key) nonce key = some m := by
  unfold secretbox secretboxOpen
  have ht : (List.replicate 15 (0 : Nat) ++ m).take 15 = List.replicate 15 0 := by
    rw [List.take_append_of_le_length (by simp), List.take_of_length_le (by simp)]
  have hd : (List.replicate 15 (0 : Nat) ++ m).drop 15 = m := by
    rw [List.drop_append_of_le_length (by simp)]
    simp
  simp [ht, hd]

/-- `SecretsService.encrypt` with the nonce made explicit: the stored
ciphertext bytes are `nonce ∥ secretbox(m, nonce, key)`. -/
def encrypt (m nonce key : List Nat) : List Nat :=
  nonce ++ secretbox m nonce key

/-- `SecretsService.decrypt`: split off the 24-byte nonce, open the box,
fail closed (`none`) when opening fails. -/
def decrypt (combined key : List Nat) : Option (List Nat) :=
  secretboxOpen (combined.drop 24) (combined.take 24) key

theorem decrypt_encrypt (m nonce key : List Nat) (hn : nonce.length = 24) :
    decrypt (encrypt m nonce key) key = some m := by
  unfold decrypt encrypt
  rw [List.take_append_of_le_length (by omega), List.drop_append_of_le_length (by omega)]
  rw [List.take_of_length_le (by omega), List.drop_eq_nil_of_le (by omega)]
  simpa using secretboxOpen_roundtrip m nonce key

theorem list_set_ne_self {α : Type} {l : List α} {i : Nat} {v : α}
    (hi : i < l.length) (hv : v ≠ l[i]) : l.set i v ≠ l := by
  intro h
  apply hv
  have := congrArg (fun t => t[i]?) h
  simpa [List.getElem?_set_self hi, List.getElem?_eq_getElem hi] using this

theorem pad_eq : ((List.replicate 15 (0:Nat)) ++ (m : List Nat)).take 15 = List.replicate 15 0 ∧
    (List.replicate 15 (0:Nat) ++ m).drop 15 = m := by
  constructor
  · rw [List.take_append_of_le_length (by simp), List.take_of_length_le (by simp)]
  · rw [List.drop_append_of_le_length (by simp)]
    simp

/-- Opening under the wrong nonce fails: the idealized authenticator pins
the nonce. -/
theorem secretboxOpen_wrong_nonce (m nonce nonce' key : List Nat)
    (hne : nonce' ≠ nonce) : secretboxOpen (secretbox m nonce key) nonce' key = none := by
  unfold secretbox
  rw [secretboxOpen_cons, if_neg]
  intro hcond
  rw [pad_eq.2] at hcond
  exact hne (encTriple_inj hcond.2.2).2.1.symm

/-- Opening under the wrong key fails. -/
theorem secretboxOpen_wrong_key (m nonce key key' : List Nat)
    (hne : key' ≠ key) : secretboxOpen (secretbox m nonce key) nonce key' = none := by
  unfold secretbox
  rw [secretboxOpen_cons, if_neg]
  intro hcond
  rw [pad_eq.2] at hcond
  exact hne (encTriple_inj hcond.2.2).1.symm

/-- Opening a box with any byte replaced by a different value fails. -/
theorem secretboxOpen_tamper (m nonce key : List Nat) (j v : Nat)
    (hj : j < (secretbox m nonce key).length)
    (hv : v ≠ (secretbox m nonce key)[j]) :
    secretboxOpen ((secretbox m nonce key).set j v) nonce key = none := by
  unfold secretbox at *
  cases j with
  | zero =>
    -- the authenticator byte is replaced
    simp only [List.getElem_cons_zero] at hv
    rw [List.set_cons_zero]
    rw [secretboxOpen_cons, if_neg]
    intro hcond
    rw [pad_eq.2] at hcond
    exact hv hcond.2.2
  | succ i =>
    rw [List.set_cons_succ]
    simp only [List.length_cons, List.length_append, List.length_replicate] at hj
    by_cases h15 : i < 15
    · -- a zero-padding byte is replaced by a non-zero value
      have hv0 : v ≠ 0 := by
        rw [List.getElem_cons_succ,
          List.getElem_append_left (show i < (List.replicate 15 (0:Nat)).length by simpa),
          List.getElem_replicate] at hv
        exact hv
      rw [List.set_append_left _ _ (by simpa)]
      rw [secretboxOpen_cons, if_neg]
      intro hcond
      have htake : ((List.replicate 15 (0:Nat)).set i v ++ m).take 15 =
          (List.replicate 15 (0:Nat)).set i v := by
        rw [List.take_append_of_le_length (by simp), List.take_of_length_le (by simp)]
      rw [htake] at hcond
      apply list_set_ne_self (l := List.replicate 15 (0:Nat)) (by simpa)
        (by rw [List.getElem_replicate]; exact hv0)
      exact hcond.1
    · -- a message byte is replaced: the authenticator pins the message
      have him : i - 15 < m.length := by omega
      have hvm : v ≠ m[i - 15] := by
        rw [List.getElem_cons_succ,
          List.getElem_append_right (by simpa using h15)] at hv
        simpa using hv
      rw [List.set_append_right _ _ (by simpa using h15), List.length_replicate]
      rw [secretboxOpen_cons, if_neg]
      intro hcond
      have hdrop : (List.replicate 15 (0:Nat) ++ m.set (i - 15) v).drop 15 =
          m.set (i - 15) v := by
        rw [List.drop_append_of_le_length (by simp)]
        simp
      rw [hdrop] at hcond
      have := (encTriple_inj hcond.2.2).2.2
      exact list_set_ne_self him hvm this.symm

/-- Decrypting a valid ciphertext whose byte at any position has been
replaced by a different value fails. -/
theorem decrypt_tamper (m nonce key : List Nat) (hn : nonce.length = 24)
    (i v : Nat) (hi : i < (encrypt m nonce key).length)
    (hv : v ≠ (encrypt m nonce key)[i]) :
    decrypt ((encrypt m nonce key).set i v) key = none := by
  unfold encrypt at *
  by_cases hlt : i < 24
  · -- the replaced byte lands in the nonce
    rw [List.set_append_left _ _ (by omega)]
    unfold decrypt
    rw [List.take_append_of_le_length (by rw [List.length_set]; omega),
      List.drop_append_of_le_length (by rw [List.length_set]; omega)]
    rw [List.take_of_length_le (by rw [List.length_set]; omega),
      List.drop_eq_nil_of_le (by rw [List.length_set]; omega), List.nil_append]
    apply secretboxOpen_wrong_nonce
    apply list_set_ne_self (by omega)
    rwa [List.getElem_append_left (by omega)] at hv
  · -- the replaced byte lands in the box
    have hbl : i - 24 < (secretbox m nonce key).length := by
      simp only [List.length_append] at hi; omega
    rw [List.set_append_right _ _ (by omega), hn]
    unfold decrypt
    rw [List.take_append_of_le_length (by omega), List.drop_append_of_le_length (by omega)]
    rw [List.take_of_length_le (by omega), List.drop_eq_nil_of_le (by omega), List.nil_append]
    apply secretboxOpen_tamper _ _ _ _ _ hbl
    rw [List.getElem_append_right (by omega)] at hv
    simpa [hn] using hv

/-- Decrypting under a different master key fails. -/
theorem decrypt_wrong_key (m nonce key key' : List Nat) (hn : nonce.length = 24)
    (hk : key' ≠ key) : decrypt (encrypt m nonce key) key' = none := by
  unfold decrypt encrypt
  rw [List.take_append_of_le_length (by omega), List.drop_append_of_le_length (by omega)]
  rw [List.take_of_length_le (by omega), List.drop_eq_nil_of_le (by omega), List.nil_append]
  exact secretboxOpen_wrong_key m nonce key key' hk

/-! ## Log redaction (`logger.ts`, `redactSecrets`)

`redactSecrets` applies seven global case-insensitive regex replacements in
sequence, each substituting `[REDACTED]` for the whole match.  The regexes
are of two shapes: a literal followed by `\S+` or `[a-zA-Z0-9]+`
(`API_KEY=\S+`, `PASSWORD=\S+`, `TOKEN=\S+`, `PRIVATE_KEY=\S+`,
`sk_live_[a-zA-Z0-9]+`, `sk_test_[a-zA-Z0-9]+`), and `SECRET_\w+=\S+`.
JavaScript strings are modelled as `List Char`; case-insensitive matching
is ASCII case folding (the JS `i` flag without `u` does not fold non-ASCII
characters into ASCII); `\s`/`\S` use the ASCII whitespace set.

A greedy `\w+`/`\S+`/`[a-zA-Z0-9]+` with nothing after it, or followed by a
character outside its own class (`=` after `\w+`), never benefits from
backtracking: giving back characters re-tests a character of the same
class, so only the maximal run can satisfy the continuation.  `matchAt`
therefore computes maximal runs only, which is equivalent to the JS
backtracking semantics for these seven regexes. -/

/-- ASCII case folding used by the JS `i` flag on these patterns. -/
def jsLower (c : Char) : Char :=
  if 'A' ≤ c ∧ c ≤ 'Z' then Char.ofNat (c.toNat + 32) else c

/-- Case-insensitive character comparison. -/
def eqCI (a b : Char) : Bool := jsLower a == jsLower b

/-- JS regex `\s` (ASCII part). -/
def jsIsSpace (c : Char) : Bool :=
  c == ' ' || c == '\t' || c == '\n' || c == '\r' ||
    c == Char.ofNat 11 || c == Char.ofNat 12

/-- JS regex `\S` (ASCII part). -/
def jsNonSpace (c : Char) : Bool := !jsIsSpace c

/-- JS regex `\w`. -/
def jsIsWord (c : Char) : Bool :=
  ('a' ≤ c && c ≤ 'z') || ('A' ≤ c && c ≤ 'Z') || ('0' ≤ c && c ≤ '9') || c == '_'

/-- JS regex class `[a-zA-Z0-9]`. -/
def jsIsAlnum (c : Char) : Bool :=
  ('a' ≤ c && c ≤ 'z') || ('A' ≤ c && c ≤ 'Z') || ('0' ≤ c && c ≤ '9')

/-- The shapes of the seven redaction regexes: a case-insensitive literal
followed by a nonempty greedy run of one character class, or the
`SECRET_\w+=\S+` key-value shape. -/
inductive Pat
  | litRun (lit : List Char) (cls : Char → Bool)
  | keyVal (lit : List Char)

/-- Length of the maximal leading run of `cls`-characters. -/
def runLen (cls : Char → Bool) : List Char → Nat
  | [] => 0
  | c :: t => if cls c then runLen cls t + 1 else 0

/-- Case-insensitive "starts with the literal". -/
def ciStarts : List Char → List Char → Bool
  | [], _ => true
  | _ :: _, [] => false
  | a :: as, b :: bs => eqCI a b && ciStarts as bs

/-- Length of the regex match anchored at the head of `l`, if any;
maximal-run semantics (equivalent to JS backtracking for these shapes). -/
def matchAt : Pat → List Char → Option Nat
  | .litRun lit cls, l =>
    if ciStarts lit l then
      let r := runLen cls (l.drop lit.length)
      if r = 0 then none else some (lit.length + r)
    else none
  | .keyVal lit, l =>
    if ciStarts lit l then
      let w := runLen jsIsWord (l.drop lit.length)
      if w = 0 then none
      else
        match l.drop (lit.length + w) with
        | '=' :: rest =>
          let r := runLen jsNonSpace rest
          if r = 0 then none else some (lit.length + w + 1 + r)
        | _ => none
    else none

theorem matchAt_pos {p : Pat} {l : List Char} {n : Nat}
    (h : matchAt p l = some n) : 0 < n := by
  cases p with
  | litRun lit cls =>
    simp only [matchAt] at h
    split at h
    · split at h
      · exact absurd h (by simp)
      · injection h with h
        omega
    · exact absurd h (by simp)
  | keyVal lit =>
    simp only [matchAt] at h
    split at h
    · split at h
      · exact absurd h (by simp)
      · split at h
        · split at h
          · exact absurd h (by simp)
          · injection h with h
            omega
        · exact absurd h (by simp)
    · exact absurd h (by simp)

/-- The replacement text. -/
def RED : List Char := "[REDACTED]".data

/-- One `String.replace(regex, "[REDACTED]")` pass with a global regex:
scan left to right, replace each leftmost match, resume after it. -/
def scanRepl (p : Pat) : List Char → List Char
  | [] => []
  | c :: t =>
    match h : matchAt p (c :: t) with
    | some n => RED ++ scanRepl p ((c :: t).drop n)
    | none => c :: scanRepl p t
termination_by l => l.length
decreasing_by
  · have := matchAt_pos h
    simp only [List.length_drop, List.length_cons]
    omega
  · simp

/-- `/SECRET_\w+=\S+/gi` -/
def patSecretEq : Pat := .keyVal "SECRET_".data
/-- `/API_KEY=\S+/gi` -/
def patApiKeyEq : Pat := .litRun "API_KEY=".data jsNonSpace
/-- `/PASSWORD=\S+/gi` -/
def patPasswordEq : Pat := .litRun "PASSWORD=".data jsNonSpace
/-- `/TOKEN=\S+/gi` -/
def patTokenEq : Pat := .litRun "TOKEN=".data jsNonSpace
/-- `/PRIVATE_KEY=\S+/gi` -/
def patPrivateKeyEq : Pat := .litRun "PRIVATE_KEY=".data jsNonSpace
/-- `/sk_live_[a-zA-Z0-9]+/gi` -/
def patSkLive : Pat := .litRun "sk_live_".data jsIsAlnum
/-- `/sk_test_[a-zA-Z0-9]+/gi` -/
def patSkTest : Pat := .litRun "sk_test_".data jsIsAlnum

/-- `redactSecrets` (`logger.ts`): the seven replacement passes in source
order. -/
def redactChars (s : List Char) : List Char :=
  scanRepl patSkTest (scanRepl patSkLive (scanRepl patPrivateKeyEq
    (scanRepl patTokenEq (scanRepl patPasswordEq (scanRepl patApiKeyEq
      (scanRepl patSecretEq s))))))

/-- `redactSecrets` on JS strings. -/
def redactSecrets (s : String) : String := ⟨redactChars s.data⟩

/-! ## Store lookup helpers (`db.ts` query shapes) -/

/-- `SELECT … FROM environments WHERE id = $1 AND user_id = $2`. -/
def Store.findEnv (st : Store) (envId userId : Nat) : Option EnvRow :=
  st.environments.find? (fun r => r.id == envId && r.user_id == userId)

/-- `SELECT … FROM environment_versions WHERE id = $1`. -/
def Store.findVersion (st : Store) (vid : Nat) : Option EnvVersionRow :=
  st.versions.find? (fun r => r.id == vid)

/-- `SELECT … FROM sandboxes WHERE id = $1 AND user_id = $2`. -/
def Store.findSandbox (st : Store) (sid userId : Nat) : Option SandboxRow :=
  st.sandboxes.find? (fun r => r.id == sid && r.user_id == userId)

/-- `SELECT … FROM sandboxes WHERE id = $1` (the WebSocket ownership
lookup is not user-scoped). -/
def Store.findSandboxById (st : Store) (sid : Nat) : Option SandboxRow :=
  st.sandboxes.find? (fun r => r.id == sid)

/-- `SELECT id FROM sandboxes WHERE user_id = $1 AND environment_id = $2
AND name = $3` — the idempotency-key lookup. -/
def Store.findSandboxByKey (st : Store) (userId envId : Nat) (name : String) :
    Option SandboxRow :=
  st.sandboxes.find? (fun r =>
    r.user_id == userId && r.environment_id == envId && r.name == name)

/-- `UPDATE sandboxes SET … WHERE id = $1`. -/
def Store.updateSandbox (st : Store) (sid : Nat) (f : SandboxRow → SandboxRow) : Store :=
  { st with sandboxes := st.sandboxes.map (fun r => if r.id == sid then f r else r) }

/-! ## Environment service (`EnvironmentService.ts`) -/

/-- Request body of `POST /environments` before zod validation
(`CreateEnvironmentSchema`); absent JSON fields are `none`. -/
structure CreateEnvBody where
  name : String
  image : Option String
  dockerfile : Option String
  buildFiles : Option (List (String × String))
  command : Option (List String)
  cpu : Option Rat
  memory : Option Nat
  ports : Option (List PortMapping)
  env : Option (List (String × String))
  mounts : Option (List (String × String))
  deriving DecidableEq, Repr

/-- The body after zod parsing, with schema defaults applied. -/
structure ParsedCreateEnv where
  name : String
  image : Option String
  dockerfile : Option String
  buildFiles : List (String × String)
  command : Option (List String)
  cpu : Rat
  memory : Nat
  ports : List PortMapping
  env : List (String × String)
  mounts : List (String × String)
  deriving DecidableEq, Repr

/-- `PortMappingSchema`: container 1..65535, host 1024..65535. -/
def portOk (p : PortMapping) : Bool :=
  1 ≤ p.container && p.container ≤ 65535 && 1024 ≤ p.host && p.host ≤ 65535

/-- First-character class of the image regex (`[a-z0-9]` with the `i`
flag). -/
def imgStart (c : Char) : Bool := c.isAlpha || c.isDigit

/-- Repository-part class of the image regex (`[a-z0-9./_-]`, `i`). -/
def imgChar (c : Char) : Bool :=
  c.isAlpha || c.isDigit || c == '.' || c == '_' || c == '-' || c == '/'

/-- Tag-part classes of the image regex (`[\w]` then `[\w.\-]*`). -/
def tagChar (c : Char) : Bool := jsIsWord c || c == '.' || c == '-'

/-- The image-format regex (first char `[a-z0-9]`, then the repository
class, then an optional `:` + tag, case-insensitive, anchored): the
repository part, optionally followed by `:` and a tag; neither part may
contain `:`, so the string decomposes at the colons. -/
def imageFormatOk (s : String) : Bool :=
  match s.data.splitOn ':' with
  | [main] =>
    match main with
    | [] => false
    | c :: rest => imgStart c && rest.all imgChar
  | [main, tag] =>
    (match main with
     | [] => false
     | c :: rest => imgStart c && rest.all imgChar) &&
    (match tag with
     | [] => false
     | c :: rest => jsIsWord c && rest.all tagChar)
  | _ => false

/-- The per-field validations of `CreateEnvironmentSchema` (name length,
image length and format, dockerfile length, cpu and memory ranges, port
count and ranges). -/
def schemaFieldsOk (b : CreateEnvBody) : Bool :=
  (1 ≤ b.name.length && b.name.length ≤ 100)
    && (match b.image with
        | none => true
        | some s => 1 ≤ s.length && s.length ≤ 500 && imageFormatOk s)
    && (match b.dockerfile with
        | none => true
        | some s => 1 ≤ s.length && s.length ≤ 50000)
    && (match b.cpu with
        | none => true
        | some q => 1/4 ≤ q && q ≤ 4)
    && (match b.memory with
        | none => true
        | some n => 128 ≤ n && n ≤ 2048)
    && (match b.ports with
        | none => true
        | some ps => ps.length ≤ 10 && ps.all portOk)

/-- `CreateEnvironmentSchema.parse`: field validations, then the refine
`data.image || data.dockerfile`; on success the declared defaults are
substituted for absent fields. -/
def parseCreateEnvironment (b : CreateEnvBody) : Option ParsedCreateEnv :=
  if schemaFieldsOk b && (b.image.isSome || b.dockerfile.isSome) then
    some { name := b.name, image := b.image, dockerfile := b.dockerfile,
           buildFiles := b.buildFiles.getD [], command := b.command,
           cpu := b.cpu.getD 2, memory := b.memory.getD 512,
           ports := b.ports.getD [], env := b.env.getD [],
           mounts := b.mounts.getD [] }
  else none

/-- `EnvironmentService.createEnvironment`: reject when neither image nor
dockerfile is given, enforce the 5-environment quota, then in one
transaction insert the environment row, version 1 (no secrets, and the
INSERT carries no `command` column) and set `current_version_id`.  The
`UNIQUE(user_id, name)` constraint aborting the transaction is modelled as
a `conflict` error. -/
def createEnvironment (userId : Nat) (data : ParsedCreateEnv)
    (newEnvId newVerId now : Nat) (st : Store) :
    Except SvcErr (EnvRow × EnvVersionRow) × Store :=
  if data.image.isNone && data.dockerfile.isNone then
    (.error (.validation "Either image or dockerfile must be provided"), st)
  else
    let count := (st.environments.filter (fun r => r.user_id == userId)).length
    if 5 ≤ count then
      (.error (.quotaExceeded "Maximum 5 environments allowed per user"), st)
    else if st.environments.any (fun r => r.user_id == userId && r.name == data.name) then
      (.error (.conflict "duplicate environment name"), st)
    else
      let verRow : EnvVersionRow :=
        { id := newVerId, environment_id := newEnvId, version := 1,
          image := data.image, dockerfile := data.dockerfile,
          build_files := data.buildFiles, command := none,
          cpu := data.cpu, memory := data.memory, ports := data.ports,
          env := data.env, secrets := [], mounts := data.mounts,
          created_at := now }
      let envRow : EnvRow :=
        { id := newEnvId, user_id := userId, name := data.name,
          current_version_id := some newVerId, created_at := now, updated_at := now }
      (.ok (envRow, verRow),
        { st with environments := st.environments ++ [envRow],
                  versions := st.versions ++ [verRow] })

/-- `POST /environments`: zod validation, then the service call. -/
def routeCreateEnvironment (userId : Nat) (b : CreateEnvBody)
    (newEnvId newVerId now : Nat) (st : Store) :
    Except SvcErr (EnvRow × EnvVersionRow) × Store :=
  match parseCreateEnvironment b with
  | none => (.error (.validation "invalid request body"), st)
  | some data => createEnvironment userId data newEnvId newVerId now st

/-- The patch accepted by `EnvironmentService.updateEnvironment` (its
parameter type omits dockerfile, buildFiles and command). -/
structure UpdateEnvPatch where
  image : Option String
  cpu : Option Rat
  memory : Option Nat
  ports : Option (List PortMapping)
  env : Option (List (String × String))
  mounts : Option (List (String × String))
  deriving DecidableEq, Repr

/-- `EnvironmentService.updateEnvironment`: lock and load the environment,
load its current version, insert a version numbered `current.version + 1`
whose INSERT lists only the image/cpu/memory/ports/env/secrets/mounts
columns (so `dockerfile`, `build_files` and `command` take their schema
defaults NULL/`{}`/NULL), then flip `current_version_id`. -/
def updateEnvironment (userId envId : Nat) (data : UpdateEnvPatch)
    (newVerId now : Nat) (st : Store) :
    Except SvcErr (EnvRow × EnvVersionRow) × Store :=
  match st.findEnv envId userId with
  | none => (.error (.notFound "Environment not found"), st)
  | some envRow =>
    match envRow.current_version_id.bind st.findVersion with
    | none => (.error (.other "Environment version not found"), st)
    | some cur =>
      let verRow : EnvVersionRow :=
        { id := newVerId, environment_id := envId, version := cur.version + 1,
          image := data.image <|> cur.image,
          dockerfile := none, build_files := [], command := none,
          cpu := data.cpu.getD cur.cpu, memory := data.memory.getD cur.memory,
          ports := data.ports.getD cur.ports, env := data.env.getD cur.env,
          secrets := cur.secrets,
          mounts := data.mounts.getD cur.mounts, created_at := now }
      let st' : Store :=
        { st with
          versions := st.versions ++ [verRow],
          environments := st.environments.map (fun r =>
            if r.id == envId then
              { r with current_version_id := some newVerId, updated_at := now }
            else r) }
      (.ok ({ envRow with current_version_id := some newVerId }, verRow), st')

/-! ## Sandbox service (`SandboxService.ts`) -/

/-- `status NOT IN ('stopped', 'expired', 'error')`. -/
def nonTerminal (s : SandboxStatus) : Bool :=
  !(s == .stopped || s == .expired || s == .error)

/-- `SandboxService.getSandbox`: the user-scoped row lookup (the logs
preview attached to the HTTP response is not modelled). -/
def getSandbox (userId sid : Nat) (st : Store) : Option SandboxRow :=
  st.findSandbox sid userId

/-- Request body of `POST /sandboxes` after zod parsing. -/
structure CreateSandboxData where
  environmentId : Nat
  environmentVersionId : Option Nat
  name : Option String
  ttlSeconds : Option Nat
  overrideEnv : Option (List (String × String))
  overridePorts : Option (List PortMapping)
  deriving DecidableEq, Repr

/-- `SandboxService.createSandbox`.  `newId` models `uuidv4()` for the row
id, `fresh` the random 8-hex name suffix, `now` the clock.  Steps, in
source order: quota check, environment and version resolution, name
derivation, idempotency lookup (return the existing row untouched), then
row insertion and the asynchronous provisioner spawn. -/
def createSandbox (userId : Nat) (data : CreateSandboxData)
    (newId : Nat) (fresh : String) (now : Nat) (st : Store) :
    Except SvcErr SandboxRow × Store × List Effect :=
  let count := (st.sandboxes.filter (fun r =>
    r.user_id == userId && nonTerminal r.status)).length
  if 10 ≤ count then
    (.error (.quotaExceeded "Maximum 10 concurrent sandboxes allowed per user"), st, [])
  else
    match st.findEnv data.environmentId userId with
    | none => (.error (.notFound "Environment not found"), st, [])
    | some env =>
      match data.environmentVersionId <|> env.current_version_id with
      | none => (.error (.other "Environment has no version"), st, [])
      | some versionId =>
        match st.findVersion versionId with
        | none => (.error (.notFound "Environment version not found"), st, [])
        | some version =>
          let sandboxName := data.name.getD (env.name ++ "-" ++ fresh)
          match st.findSandboxByKey userId data.environmentId sandboxName with
          | some existing =>
            match getSandbox userId existing.id st with
            | some row => (.ok row, st, [])
            | none => (.error (.notFound "Sandbox not found"), st, [])
          | none =>
            let row : SandboxRow :=
              { id := newId, user_id := userId,
                environment_id := data.environmentId,
                environment_version_id := versionId,
                name := sandboxName, container_id := none,
                status := .pending, phase := .creating,
                ports := data.overridePorts.getD version.ports,
                created_at := now, started_at := none, stopped_at := none,
                expires_at := data.ttlSeconds.map (fun t => now + t * 1000),
                provision_progress := 0, provision_status := "" }
            let st' := { st with sandboxes := st.sandboxes ++ [row] }
            match getSandbox userId newId st' with
            | some r => (.ok r, st', [.spawnProvisioner newId])
            | none => (.error (.notFound "Sandbox not found"), st', [.spawnProvisioner newId])

/-- `SandboxService.startSandbox`: user-scoped load; short-circuit (row
returned, nothing done) only when `status` is already `running`; otherwise
require a container and call the runtime, then mark running/healthy. -/
def startSandbox (userId sid now : Nat) (st : Store) :
    Except SvcErr SandboxRow × Store × List Effect :=
  match st.findSandbox sid userId with
  | none => (.error (.notFound "Sandbox not found"), st, [])
  | some sandbox =>
    if sandbox.status == .running then
      (.ok sandbox, st, [])
    else
      match sandbox.container_id with
      | none => (.error (.other "Sandbox has no container"), st, [])
      | some cid =>
        let st' := st.updateSandbox sid (fun r =>
          { r with status := .running, phase := .healthy,
                   started_at := some now, stopped_at := none })
        match getSandbox userId sid st' with
        | some r => (.ok r, st', [.dockerStart cid])
        | none => (.error (.notFound "Sandbox not found"), st', [.dockerStart cid])

/-- `SandboxService.stopSandbox`: short-circuit only when `status` is
already `stopped`; otherwise require a container, stop it, mark
stopped/stopped. -/
def stopSandbox (userId sid now : Nat) (st : Store) :
    Except SvcErr SandboxRow × Store × List Effect :=
  match st.findSandbox sid userId with
  | none => (.error (.notFound "Sandbox not found"), st, [])
  | some sandbox =>
    if sandbox.status == .stopped then
      (.ok sandbox, st, [])
    else
      match sandbox.container_id with
      | none => (.error (.other "Sandbox has no container"), st, [])
      | some cid =>
        let st' := st.updateSandbox sid (fun r =>
          { r with status := .stopped, phase := .stopped, stopped_at := some now })
        match getSandbox userId sid st' with
        | some r => (.ok r, st', [.dockerStop cid])
        | none => (.error (.notFound "Sandbox not found"), st', [.dockerStop cid])

/-- `SandboxService.restartSandbox`: user-scoped load, then — with no
status guard at all — require a container, restart it, mark
running/healthy. -/
def restartSandbox (userId sid now : Nat) (st : Store) :
    Except SvcErr SandboxRow × Store × List Effect :=
  match st.findSandbox sid userId with
  | none => (.error (.notFound "Sandbox not found"), st, [])
  | some sandbox =>
    match sandbox.container_id with
    | none => (.error (.other "Sandbox has no container"), st, [])
    | some cid =>
      let st' := st.updateSandbox sid (fun r =>
        { r with status := .running, phase := .healthy,
                 started_at := some now, stopped_at := none })
      match getSandbox userId sid st' with
      | some r => (.ok r, st', [.dockerRestart cid])
      | none => (.error (.notFound "Sandbox not found"), st', [.dockerRestart cid])

/-- `SandboxService.destroySandbox`: user-scoped load; `false` when
absent; otherwise force-remove the container (if any), delete the row
(cascade deletes its logs), return `true`. -/
def destroySandbox (userId sid : Nat) (st : Store) :
    Bool × Store × List Effect :=
  match st.findSandbox sid userId with
  | none => (false, st, [])
  | some sandbox =>
    let effs := match sandbox.container_id with
      | some cid => [Effect.dockerRemove cid]
      | none => []
    let st' := { st with
      sandboxes := st.sandboxes.filter (fun r => !(r.id == sid)),
      logs := st.logs.filter (fun l => !(l.sandbox_id == sid)) }
    (true, st', effs)

/-- `SandboxService.getLogs`: ownership check, then the newest `tail`
rows in chronological order. -/
def getLogs (userId sid tail : Nat) (st : Store) :
    Except SvcErr (List SandboxLogRow) × Store × List Effect :=
  match st.findSandbox sid userId with
  | none => (.error (.notFound "Sandbox not found"), st, [])
  | some _ =>
    (.ok (((st.logs.filter (fun l => l.sandbox_id == sid)).reverse.take tail).reverse),
      st, [])

/-! ## WebSocket hub (`websocket.ts`) -/

/-- Outcome of the WebSocket ownership gate. -/
inductive WsGate
  | closed4004
  | proceed (sandbox : SandboxRow)
  deriving DecidableEq, Repr

/-- `setupWebSocket` ownership verification: load the sandbox by id alone;
when it is absent **or** owned by someone else, send "Sandbox not found"
and close with code 4004 — the same observable outcome in both cases. -/
def wsVerifyOwnership (userId sid : Nat) (st : Store) : WsGate :=
  match st.findSandboxById sid with
  | none => .closed4004
  | some s => if s.user_id == userId then .proceed s else .closed4004

/-! ## Log ingestion (`SandboxService.collectLogs` and the per-viewer
tail in `websocket.ts`, `streamContainerLogs`) -/

/-- One decoded runtime log event as consumed by the collectors. -/
structure DockerLogEvent where
  log_type : String
  text : String
  timestamp : Nat
  deriving DecidableEq, Repr

/-- Per-sandbox retention after a collector insert: keep the newest 10000
rows of the sandbox (row timestamps coincide with insertion order). -/
def enforceRetention (sid : Nat) (st : Store) : Store :=
  let own := st.logs.filter (fun l => l.sandbox_id == sid)
  if own.length ≤ 10000 then st
  else
    { st with logs :=
        st.logs.filter (fun l => !(l.sandbox_id == sid)) ++
          (own.reverse.take 10000).reverse }

/-- Loop body of `SandboxService.collectLogs` for one event: redact,
insert one `sandbox_logs` row, enforce retention. -/
def collectLogsEvent (sid : Nat) (ev : DockerLogEvent) (st : Store) : Store :=
  enforceRetention sid
    { st with logs := st.logs ++
        [{ sandbox_id := sid, log_type := ev.log_type,
           text := redactSecrets ev.text, timestamp := ev.timestamp }] }

/-- Loop body of the per-viewer tail in `websocket.ts`
(`streamContainerLogs`) for one event: redact, send the frame to the
viewer, and **also insert a `sandbox_logs` row** (no retention pass). -/
def wsViewerLogEvent (sid : Nat) (ev : DockerLogEvent) (st : Store) : Store :=
  { st with logs := st.logs ++
      [{ sandbox_id := sid, log_type := ev.log_type,
         text := redactSecrets ev.text, timestamp := ev.timestamp }] }

/-- Store effect of one runtime log event of a running sandbox observed by
the collector and by `viewers` connected WebSocket log viewers: every one
of these independent tails inserts its own row. -/
def deliverLogEvent (sid : Nat) (ev : DockerLogEvent) (viewers : Nat) (st : Store) : Store :=
  (wsViewerLogEvent sid ev)^[viewers] (collectLogsEvent sid ev st)

/-! ## Runtime log-stream demultiplexing (`docker.ts`, `streamLogs`)

The runtime multiplexes stdout/stderr into 8-byte-headed frames: stream
type in byte 0, a 4-byte big-endian payload length in bytes 4..7, then the
payload.  `streamLogs` peels complete frames off the buffer, decodes each
payload, strips a leading RFC3339 timestamp (pattern
`\d plus punctuation … Z`, then one whitespace) into the event timestamp
when present, and trims trailing whitespace from the text.  Payload bytes
are modelled at byte granularity (`List Nat`). -/

/-- Byte is an ASCII digit. -/
def isDigitB (b : Nat) : Bool := 48 ≤ b && b ≤ 57

/-- Byte is ASCII whitespace (JS `\s` / `trimEnd`, ASCII part). -/
def isSpaceB (b : Nat) : Bool :=
  b == 32 || b == 9 || b == 10 || b == 13 || b == 11 || b == 12

/-- Consume exactly `k` digit bytes, returning the rest. -/
def afterDigits : Nat → List Nat → Option (List Nat)
  | 0, l => some l
  | _ + 1, [] => none
  | k + 1, b :: t => if isDigitB b then afterDigits k t else none

/-- Consume one expected byte, returning the rest. -/
def expectByte (b : Nat) : List Nat → Option (List Nat)
  | [] => none
  | c :: t => if c == b then some t else none

/-- Consume the maximal nonempty run of digit bytes (`\d+`), returning
the rest. -/
def afterDigitRun : List Nat → Option (List Nat)
  | [] => none
  | b :: t =>
    if isDigitB b then
      match afterDigitRun t with
      | some r => some r
      | none => some t
    else none

/-- Consume one whitespace byte (`\s`), returning the rest. -/
def expectSpaceB : List Nat → Option (List Nat)
  | [] => none
  | c :: t => if isSpaceB c then some t else none

/-- Rest of the payload after the full anchored timestamp pattern of
`streamLogs` (four digits, `-`, two digits, `-`, two digits, `T`, two
digits, `:`, two digits, `:`, two digits, `.`, a digit run, `Z`, one
whitespace). -/
def tsRest (l : List Nat) : Option (List Nat) :=
  ((((((((((((((afterDigits 4 l).bind (expectByte 45)).bind
    (afterDigits 2)).bind (expectByte 45)).bind
    (afterDigits 2)).bind (expectByte 84)).bind
    (afterDigits 2)).bind (expectByte 58)).bind
    (afterDigits 2)).bind (expectByte 58)).bind
    (afterDigits 2)).bind (expectByte 46)).bind
    afterDigitRun).bind (expectByte 90)).bind expectSpaceB

/-- The anchored timestamp match of `streamLogs`: on success, the captured
timestamp bytes (everything before the separating whitespace) and the rest
of the payload (`(.*)$` with the `s` flag takes everything). -/
def tsSplit (l : List Nat) : Option (List Nat × List Nat) :=
  match tsRest l with
  | none => none
  | some rest => some (l.take (l.length - rest.length - 1), rest)

/-- Timestamp assigned to an event: parsed from the matched prefix, or
`new Date()` (reception time) when the payload carries none. -/
inductive EvTime
  | parsed (ts : List Nat)
  | receivedAt
  deriving DecidableEq, Repr

/-- One event yielded by `streamLogs`. -/
structure DemuxEvent where
  logType : String
  text : List Nat
  time : EvTime
  deriving DecidableEq, Repr

/-- `text.trimEnd()` at byte granularity. -/
def trimEndB (l : List Nat) : List Nat := (l.reverse.dropWhile isSpaceB).reverse

/-- Event built from one frame's header byte 0 and payload, exactly as the
loop body of `streamLogs` does. -/
def mkLogEvent (streamType : Nat) (payload : List Nat) : DemuxEvent :=
  match tsSplit payload with
  | some (ts, rest) =>
    { logType := if streamType == 1 then "stdout" else "stderr",
      text := trimEndB rest, time := .parsed ts }
  | none =>
    { logType := if streamType == 1 then "stdout" else "stderr",
      text := trimEndB payload, time := .receivedAt }

/-- The frame-peeling loop of `streamLogs` on a complete buffer: while at
least 8 bytes remain, read the header, stop on a truncated payload,
otherwise emit the event and continue after the frame. -/
def demuxLogs : List Nat → List DemuxEvent
  | t :: _ :: _ :: _ :: a :: b :: c :: d :: rest =>
    let size := ((a * 256 + b) * 256 + c) * 256 + d
    if size ≤ rest.length then
      mkLogEvent t (rest.take size) :: demuxLogs (rest.drop size)
    else []
  | _ => []
termination_by l => l.length
decreasing_by
  simp only [List.length_drop, List.length_cons]
  omega

/-- A well-formed frame: stream type byte, three padding zero bytes, the
big-endian payload length, the payload. -/
structure LogFrame where
  streamType : Nat
  payload : List Nat
  deriving DecidableEq, Repr

/-- Big-endian 4-byte encoding. -/
def be4 (n : Nat) : List Nat :=
  [n / 16777216 % 256, n / 65536 % 256, n / 256 % 256, n % 256]

/-- Byte encoding of one frame. -/
def encodeFrame (f : LogFrame) : List Nat :=
  f.streamType :: 0 :: 0 :: 0 :: (be4 f.payload.length ++ f.payload)

/-- Byte encoding of a frame sequence. -/
def encodeFrames (fs : List LogFrame) : List Nat :=
  (fs.map encodeFrame).flatten

/-- The event the specification assigns to one frame: stream `stdout`
exactly when header byte 0 is 1, text the payload with its timestamp
prefix stripped and trailing whitespace trimmed, timestamp parsed from the
prefix when present. -/
def specFrameEvent (f : LogFrame) : DemuxEvent :=
  match tsSplit f.payload with
  | some (ts, rest) =>
    { logType := if f.streamType == 1 then "stdout" else "stderr",
      text := trimEndB rest, time := .parsed ts }
  | none =>
    { logType := if f.streamType == 1 then "stdout" else "stderr",
      text := trimEndB f.payload, time := .receivedAt }

/-- The event the claim as written assigns to one frame: as
`specFrameEvent` but with the text equal to the stripped payload itself,
without trimming trailing whitespace. -/
def claimFrameEventNoTrim (f : LogFrame) : DemuxEvent :=
  match tsSplit f.payload with
  | some (ts, rest) =>
    { logType := if f.streamType == 1 then "stdout" else "stderr",
      text := rest, time := .parsed ts }
  | none =>
    { logType := if f.streamType == 1 then "stdout" else "stderr",
      text := f.payload, time := .receivedAt }

/-! ## General service lemmas -/

/-- A user-scoped sandbox lookup by a non-owner fails, provided every row
carrying this id belongs to the owner (ids are a primary key). -/
theorem findSandbox_other_user (st : Store) (A B sid : Nat) (hAB : A ≠ B)
    (hUniq : ∀ r ∈ st.sandboxes, r.id = sid → r.user_id = A) :
    st.findSandbox sid B = none := by
  unfold Store.findSandbox
  rw [List.find?_eq_none]
  intro r hr
  simp only [Bool.and_eq_true, beq_iff_eq, not_and]
  intro hid huser
  exact hAB ((hUniq r hr hid) ▸ huser ▸ rfl)

theorem wsVerifyOwnership_other_user (st : Store) (A B sid : Nat) (hAB : A ≠ B)
    (hUniq : ∀ r ∈ st.sandboxes, r.id = sid → r.user_id = A) :
    wsVerifyOwnership B sid st = .closed4004 := by
  unfold wsVerifyOwnership
  cases hfind : st.findSandboxById sid with
  | none => rfl
  | some s =>
    have hmem := List.mem_of_find?_eq_some hfind
    have hid : s.id = sid := by
      have := List.find?_some hfind
      simpa using this
    have huser : s.user_id = A := hUniq s hmem hid
    change (if (s.user_id == B) = true then WsGate.proceed s else WsGate.closed4004) =
      WsGate.closed4004
    rw [if_neg]
    simp only [beq_iff_eq, huser]
    exact hAB

/-! ## C5: sandbox creation quota -/

/-- C5: a user owning 10 or more sandboxes in non-terminal states gets
`QuotaExceeded` from `createSandbox`; the store is unchanged and no
effect — no row insert, no container creation, no provisioner — happens. -/
theorem c5_create_quota (userId : Nat) (data : CreateSandboxData)
    (newId : Nat) (fresh : String) (now : Nat) (st : Store)
    (hq : 10 ≤ (st.sandboxes.filter (fun r =>
      r.user_id == userId && nonTerminal r.status)).length) :
    createSandbox userId data newId fresh now st =
      (.error (.quotaExceeded "Maximum 10 concurrent sandboxes allowed per user"),
        st, []) := by
  unfold createSandbox
  rw [if_pos hq]

/-- A store with ten running sandboxes of user 0, one of them named
`"s0"` under environment 0, which also exists with a version. -/
def tenSandboxSt : Store :=
  { environments := [
      { id := 0, user_id := 0, name := "e", current_version_id := some 0,
        created_at := 0, updated_at := 0 }],
    versions := [
      { id := 0, environment_id := 0, version := 1, image := some "alpine",
        dockerfile := none, build_files := [], command := none, cpu := 2,
        memory := 512, ports := [], env := [], secrets := [], mounts := [],
        created_at := 0 }],
    sandboxes := (List.range 10).map (fun i =>
      { id := i, user_id := 0, environment_id := 0, environment_version_id := 0,
        name := "s" ++ toString i, container_id := some (100 + i),
        status := .running, phase := .healthy, ports := [], created_at := 0,
        started_at := some 0, stopped_at := none, expires_at := none,
        provision_progress := 100, provision_status := "" }),
    logs := [] }

/-- The creation request repeating the key of the existing sandbox
`(user 0, environment 0, name "s0")`. -/
def repeatCreateData : CreateSandboxData :=
  { environmentId := 0, environmentVersionId := none, name := some "s0",
    ttlSeconds := none, overrideEnv := none, overridePorts := none }

theorem c5_create_quota_witness :
    10 ≤ (tenSandboxSt.sandboxes.filter (fun r =>
      r.user_id == 0 && nonTerminal r.status)).length ∧
    createSandbox 0 repeatCreateData 99 "ffffffff" 7 tenSandboxSt =
      (.error (.quotaExceeded "Maximum 10 concurrent sandboxes allowed per user"),
        tenSandboxSt, []) :=
  ⟨by decide, c5_create_quota 0 repeatCreateData 99 "ffffffff" 7 tenSandboxSt (by decide)⟩

instance {ε α : Type} [DecidableEq ε] [DecidableEq α] :
    DecidableEq (Except ε α) := fun a b =>
  match a, b with
  | .ok x, .ok y =>
    if h : x = y then .isTrue (by rw [h]) else .isFalse (by simp [h])
  | .error x, .error y =>
    if h : x = y then .isTrue (by rw [h]) else .isFalse (by simp [h])
  | .ok _, .error _ => .isFalse (by simp)
  | .error _, .ok _ => .isFalse (by simp)

/-! ## C1: idempotent creation -/

/-- C1 (amended): provided the caller is under the concurrent-sandbox
quota and the environment and its version still resolve, `createSandbox`
on an already-used idempotency key `(user, environment, name)` returns a
sandbox with the existing row's id, inserts no row (the store is
unchanged) and spawns no provisioner and no runtime call (no effects);
repeated in-quota calls with the key therefore all return the same id. -/
theorem c1_create_idempotent (userId : Nat) (data : CreateSandboxData)
    (newId : Nat) (fresh : String) (now : Nat) (st : Store)
    (env : EnvRow) (vid : Nat) (ver : EnvVersionRow) (nm : String) (ex : SandboxRow)
    (hquota : (st.sandboxes.filter (fun r =>
      r.user_id == userId && nonTerminal r.status)).length < 10)
    (henv : st.findEnv data.environmentId userId = some env)
    (hvid : (data.environmentVersionId <|> env.current_version_id) = some vid)
    (hver : st.findVersion vid = some ver)
    (hname : data.name = some nm)
    (hex : st.findSandboxByKey userId data.environmentId nm = some ex) :
    ∃ r, createSandbox userId data newId fresh now st = (.ok r, st, []) ∧
      r.id = ex.id := by
  have hmem := List.mem_of_find?_eq_some hex
  have hp := List.find?_some hex
  simp only [Bool.and_eq_true, beq_iff_eq] at hp
  have hgs : ∃ r, getSandbox userId ex.id st = some r ∧ r.id = ex.id := by
    unfold getSandbox Store.findSandbox
    cases hfind : st.sandboxes.find? (fun r => r.id == ex.id && r.user_id == userId) with
    | none =>
      exfalso
      rw [List.find?_eq_none] at hfind
      have hxp : (ex.id == ex.id && ex.user_id == userId) = true := by
        simp [hp.1.1]
      exact absurd hxp (by simpa using hfind ex hmem)
    | some r =>
      refine ⟨r, rfl, ?_⟩
      have := List.find?_some hfind
      simp only [Bool.and_eq_true, beq_iff_eq] at this
      exact this.1
  obtain ⟨r, hr, hrid⟩ := hgs
  refine ⟨r, ?_, hrid⟩
  unfold createSandbox
  rw [if_neg (by omega)]
  simp only [henv, hvid, hver, hname, Option.getD_some, hex, hr]

/-- C1 counterexample: with the ten-running-sandbox store, the key
`(user 0, environment 0, name "s0")` already exists, yet the repeated
`createSandbox` call returns `QuotaExceeded` instead of the existing
sandbox — the quota check runs before the idempotency lookup. -/
theorem c1_repeat_create_at_quota_fails :
    (tenSandboxSt.findSandboxByKey 0 0 "s0").isSome ∧
    (createSandbox 0 repeatCreateData 99 "ffffffff" 7 tenSandboxSt).1 =
      .error (.quotaExceeded "Maximum 10 concurrent sandboxes allowed per user") :=
  ⟨by decide, by decide⟩

/-- Environment row of the under-quota idempotency scenario. -/
def oneEnvRow : EnvRow :=
  { id := 0, user_id := 1, name := "e", current_version_id := some 0,
    created_at := 0, updated_at := 0 }

/-- Version row of the under-quota idempotency scenario. -/
def oneVerRow : EnvVersionRow :=
  { id := 0, environment_id := 0, version := 1, image := some "alpine",
    dockerfile := none, build_files := [], command := none, cpu := 2,
    memory := 512, ports := [], env := [], secrets := [], mounts := [],
    created_at := 0 }

/-- Existing sandbox row (id 5, key (user 1, environment 0, "s")). -/
def oneSbRow : SandboxRow :=
  { id := 5, user_id := 1, environment_id := 0,
    environment_version_id := 0, name := "s", container_id := some 9,
    status := .running, phase := .healthy, ports := [], created_at := 0,
    started_at := some 0, stopped_at := none, expires_at := none,
    provision_progress := 100, provision_status := "" }

/-- A store with one sandbox (id 5, key (user 1, environment 0, "s")) and
its environment and version, the user well under quota. -/
def oneSandboxSt : Store :=
  { environments := [oneEnvRow], versions := [oneVerRow],
    sandboxes := [oneSbRow], logs := [] }

/-- The creation request repeating the key (user 1, environment 0, "s"). -/
def repeatCreateData1 : CreateSandboxData :=
  { environmentId := 0, environmentVersionId := none, name := some "s",
    ttlSeconds := none, overrideEnv := none, overridePorts := none }

theorem c1_create_idempotent_witness :
    ((oneSandboxSt.sandboxes.filter (fun r =>
        r.user_id == 1 && nonTerminal r.status)).length < 10 ∧
      (oneSandboxSt.findSandboxByKey 1 0 "s").isSome) ∧
    ∃ r, createSandbox 1 repeatCreateData1 99 "ffffffff" 7 oneSandboxSt =
      (.ok r, oneSandboxSt, []) ∧ r.id = oneSbRow.id :=
  ⟨⟨by decide, by decide⟩,
    c1_create_idempotent 1 repeatCreateData1 99 "ffffffff" 7 oneSandboxSt
      oneEnvRow 0 oneVerRow "s" oneSbRow
      (by decide) (by decide) (by decide) (by decide) (by decide) (by decide)⟩

/-! ## C4: tenant isolation -/

/-- C4: when a sandbox belongs to user `A`, every sandbox operation
invoked by a different user `B` — get, start, stop, restart, destroy,
logs, and the WebSocket ownership gate shared by the log and terminal
endpoints — produces the not-found outcome, leaves the store (hence A's
row) unchanged and makes no container-runtime call; the outcome is the
very constant produced when no such sandbox exists at all, so nothing is
disclosed to `B`. -/
theorem c4_tenant_isolation (A B sid now tail : Nat) (st : Store) (hAB : A ≠ B)
    (_hOwn : ∃ r ∈ st.sandboxes, r.id = sid ∧ r.user_id = A)
    (hUniq : ∀ r ∈ st.sandboxes, r.id = sid → r.user_id = A) :
    getSandbox B sid st = none ∧
    startSandbox B sid now st = (.error (.notFound "Sandbox not found"), st, []) ∧
    stopSandbox B sid now st = (.error (.notFound "Sandbox not found"), st, []) ∧
    restartSandbox B sid now st = (.error (.notFound "Sandbox not found"), st, []) ∧
    destroySandbox B sid st = (false, st, []) ∧
    getLogs B sid tail st = (.error (.notFound "Sandbox not found"), st, []) ∧
    wsVerifyOwnership B sid st = .closed4004 := by
  have hn : st.findSandbox sid B = none := findSandbox_other_user st A B sid hAB hUniq
  refine ⟨?_, ?_, ?_, ?_, ?_, ?_, ?_⟩
  · unfold getSandbox; exact hn
  · unfold startSandbox; rw [hn]
  · unfold stopSandbox; rw [hn]
  · unfold restartSandbox; rw [hn]
  · unfold destroySandbox; rw [hn]
  · unfold getLogs; rw [hn]
  · exact wsVerifyOwnership_other_user st A B sid hAB hUniq

/-- A store in which user 1 owns sandbox 5. -/
def ownedSt : Store :=
  { environments := [], versions := [],
    sandboxes := [
      { id := 5, user_id := 1, environment_id := 0,
        environment_version_id := 0, name := "s", container_id := some 9,
        status := .running, phase := .healthy, ports := [], created_at := 0,
        started_at := some 0, stopped_at := none, expires_at := none,
        provision_progress := 100, provision_status := "" }],
    logs := [] }

theorem c4_tenant_isolation_witness :
    ((1 : Nat) ≠ 2 ∧ (∃ r ∈ ownedSt.sandboxes, r.id = 5 ∧ r.user_id = 1) ∧
      (∀ r ∈ ownedSt.sandboxes, r.id = 5 → r.user_id = 1)) ∧
    (getSandbox 2 5 ownedSt = none ∧
     startSandbox 2 5 11 ownedSt = (.error (.notFound "Sandbox not found"), ownedSt, []) ∧
     stopSandbox 2 5 11 ownedSt = (.error (.notFound "Sandbox not found"), ownedSt, []) ∧
     restartSandbox 2 5 11 ownedSt = (.error (.notFound "Sandbox not found"), ownedSt, []) ∧
     destroySandbox 2 5 ownedSt = (false, ownedSt, []) ∧
     getLogs 2 5 100 ownedSt = (.error (.notFound "Sandbox not found"), ownedSt, []) ∧
     wsVerifyOwnership 2 5 ownedSt = .closed4004) :=
  ⟨⟨by decide, by decide, by decide⟩,
    c4_tenant_isolation 1 2 5 11 100 ownedSt (by decide) (by decide) (by decide)⟩

/-! ## C3: lifecycle guards -/

/-- C3 (amended): `startSandbox` returns the loaded row with no runtime
call and no store change exactly when the sandbox is already `running`,
and `stopSandbox` likewise exactly when already `stopped`; in every other
status the operation proceeds and calls the runtime (given a container),
and `restartSandbox` has no status guard at all — it always calls the
runtime when a container exists. -/
theorem c3_lifecycle_guards (userId sid now : Nat) (st : Store) (row : SandboxRow)
    (hfind : st.findSandbox sid userId = some row) :
    (row.status = .running → startSandbox userId sid now st = (.ok row, st, [])) ∧
    (row.status = .stopped → stopSandbox userId sid now st = (.ok row, st, [])) ∧
    (∀ cid, row.container_id = some cid → row.status ≠ .running →
      (startSandbox userId sid now st).2.2 = [.dockerStart cid]) ∧
    (∀ cid, row.container_id = some cid → row.status ≠ .stopped →
      (stopSandbox userId sid now st).2.2 = [.dockerStop cid]) ∧
    (∀ cid, row.container_id = some cid →
      (restartSandbox userId sid now st).2.2 = [.dockerRestart cid]) := by
  refine ⟨?_, ?_, ?_, ?_, ?_⟩
  · intro hs
    unfold startSandbox
    rw [hfind]
    simp [hs]
  · intro hs
    unfold stopSandbox
    rw [hfind]
    simp [hs]
  · intro cid hcid hs
    unfold startSandbox
    rw [hfind]
    simp only [beq_iff_eq, if_neg hs, hcid]
    cases getSandbox userId sid (st.updateSandbox sid (fun r =>
      { r with status := .running, phase := .healthy,
               started_at := some now, stopped_at := none })) <;> rfl
  · intro cid hcid hs
    unfold stopSandbox
    rw [hfind]
    simp only [beq_iff_eq, if_neg hs, hcid]
    cases getSandbox userId sid (st.updateSandbox sid (fun r =>
      { r with status := .stopped, phase := .stopped, stopped_at := some now })) <;> rfl
  · intro cid hcid
    unfold restartSandbox
    simp only [hfind, hcid]
    cases getSandbox userId sid (st.updateSandbox sid (fun r =>
      { r with status := .running, phase := .healthy,
               started_at := some now, stopped_at := none })) <;> rfl

/-- A store whose only sandbox (id 0, user 0, container 9) is stopped. -/
def stoppedSt : Store :=
  { environments := [], versions := [],
    sandboxes := [
      { id := 0, user_id := 0, environment_id := 0,
        environment_version_id := 0, name := "s", container_id := some 9,
        status := .stopped, phase := .stopped, ports := [], created_at := 0,
        started_at := none, stopped_at := some 1, expires_at := none,
        provision_progress := 100, provision_status := "" }],
    logs := [] }

/-- C3 counterexample: restarting a **stopped** sandbox — a cross-state
call, since restart's valid source state is `running` — does not return
the current row without side effects: the code calls the runtime
(`docker.restart`) and rewrites the row to running/healthy. -/
theorem c3_restart_stopped_has_effects :
    (stoppedSt.sandboxes.head?.map (fun r => r.status) = some .stopped) ∧
    (restartSandbox 0 0 5 stoppedSt).2.2 = [.dockerRestart 9] ∧
    (restartSandbox 0 0 5 stoppedSt).2.1 ≠ stoppedSt := by
  refine ⟨by decide, by decide, by decide⟩

theorem c3_lifecycle_guards_witness :
    stoppedSt.findSandbox 0 0 = some (stoppedSt.sandboxes.get ⟨0, by decide⟩) ∧
    (stopSandbox 0 0 5 stoppedSt =
      (.ok (stoppedSt.sandboxes.get ⟨0, by decide⟩), stoppedSt, [])) :=
  ⟨by decide,
    (c3_lifecycle_guards 0 0 5 stoppedSt _ (by decide)).2.1 (by decide)⟩

/-! ## C2: environment update and version immutability -/

/-- Environment row of the dockerfile-based update scenario. -/
def dfEnvRow : EnvRow :=
  { id := 0, user_id := 0, name := "e", current_version_id := some 0,
    created_at := 0, updated_at := 0 }

/-- Current version of the dockerfile-based environment: a dockerfile,
build files, a command, an encrypted secret, and no image. -/
def dfVerRow : EnvVersionRow :=
  { id := 0, environment_id := 0, version := 1, image := none,
    dockerfile := some "FROM alpine", build_files := [("ctx.txt", "x")],
    command := some ["sh"], cpu := 2, memory := 512, ports := [], env := [],
    secrets := [("K", "ciphertext")], mounts := [], created_at := 0 }

/-- Store holding the dockerfile-based environment. -/
def dfSt : Store :=
  { environments := [dfEnvRow], versions := [dfVerRow], sandboxes := [], logs := [] }

/-- A patch that only changes the cpu allocation. -/
def cpuPatch : UpdateEnvPatch :=
  { image := none, cpu := some 1, memory := none, ports := none,
    env := none, mounts := none }

/-- C2 at the failing input: updating the dockerfile-based environment
with a cpu-only patch inserts version 2 = 1 + 1 whose encrypted secrets
equal the prior version's, leaves the prior version row byte-equal and
flips `current_version_id` — but the unspecified `dockerfile`,
`build_files` and `command` fields are NOT carried over: the INSERT omits
those columns, so version 2 stores NULL/`{}`/NULL for them and ends up
with neither image nor dockerfile populated. -/
theorem c2_update_drops_dockerfile :
    ((updateEnvironment 0 0 cpuPatch 1 5 dfSt).2.findVersion 1).map
        (fun v => (v.version, v.image, v.dockerfile)) = some (2, none, none) ∧
    ((updateEnvironment 0 0 cpuPatch 1 5 dfSt).2.findVersion 1).map
        (fun v => (v.build_files, v.command, v.secrets)) =
      some ([], none, [("K", "ciphertext")]) ∧
    (updateEnvironment 0 0 cpuPatch 1 5 dfSt).2.findVersion 0 = some dfVerRow ∧
    ((updateEnvironment 0 0 cpuPatch 1 5 dfSt).2.findEnv 0 0).map
        (fun e => e.current_version_id) = some (some 1) ∧
    dfVerRow.dockerfile = some "FROM alpine" ∧
    dfVerRow.build_files = [("ctx.txt", "x")] ∧
    dfVerRow.command = some ["sh"] := by
  refine ⟨by decide, by decide, by decide, by decide, by decide, by decide, by decide⟩

/-! ## C6: image/dockerfile validation on environment creation -/

/-- C6 (amended): when the per-field validations pass, the user is under
the environment quota and the name is free, environment creation succeeds
iff **at least one** of image and dockerfile is provided — a request with
neither fails, but a request supplying both is accepted, and the stored
version 1 then carries exactly the provided fields (so it may have both
image and dockerfile populated). -/
theorem c6_create_env_accepts_iff (userId : Nat) (b : CreateEnvBody)
    (newEnvId newVerId now : Nat) (st : Store)
    (hfields : schemaFieldsOk b = true)
    (hquota : (st.environments.filter (fun r => r.user_id == userId)).length < 5)
    (hconf : st.environments.any (fun r =>
      r.user_id == userId && r.name == b.name) = false) :
    ((routeCreateEnvironment userId b newEnvId newVerId now st).1.isOk = true ↔
      (b.image.isSome = true ∨ b.dockerfile.isSome = true)) ∧
    (∀ env ver st',
      routeCreateEnvironment userId b newEnvId newVerId now st = (.ok (env, ver), st') →
      ver.image = b.image ∧ ver.dockerfile = b.dockerfile) := by
  by_cases hsome : (b.image.isSome || b.dockerfile.isSome) = true
  · have hsome' : b.image.isSome = true ∨ b.dockerfile.isSome = true := by
      simpa using hsome
    have hnb : (b.image.isNone && b.dockerfile.isNone) = false := by
      rcases hsome' with h | h
      · cases hb : b.image with
        | none => rw [hb] at h; exact absurd h (by simp)
        | some v => simp [hb]
      · cases hb : b.dockerfile with
        | none => rw [hb] at h; exact absurd h (by simp)
        | some v => simp [hb]
    have hq5 : ¬ 5 ≤ (st.environments.filter (fun r => r.user_id == userId)).length := by
      omega
    simp only [routeCreateEnvironment, parseCreateEnvironment, hfields, hsome,
      Bool.true_and, if_true, createEnvironment, hnb, Bool.false_eq_true, if_false,
      if_neg hq5, hconf, Except.isOk, Except.toBool]
    constructor
    · exact ⟨fun _ => hsome', fun _ => trivial⟩
    · intro env ver st' heq
      simp only [Prod.mk.injEq, Except.ok.injEq] at heq
      obtain ⟨⟨_, hver⟩, _⟩ := heq
      rw [← hver]
      exact ⟨rfl, rfl⟩
  · have h2 : (b.image.isSome || b.dockerfile.isSome) = false :=
      (Bool.not_eq_true _) ▸ hsome
    have hnone : (schemaFieldsOk b && (b.image.isSome || b.dockerfile.isSome)) = false := by
      rw [h2, Bool.and_false]
    simp only [routeCreateEnvironment, parseCreateEnvironment, hnone,
      Bool.false_eq_true, if_false, Except.isOk, Except.toBool]
    constructor
    · constructor
      · intro hc
        exact absurd hc (by simp)
      · intro hc
        exact absurd (by rcases hc with h | h <;> simp [h]) hsome
    · intro env ver st' heq
      simp at heq

/-- The empty store. -/
def emptySt : Store := { environments := [], versions := [], sandboxes := [], logs := [] }

/-- A creation request supplying **both** an image and a dockerfile. -/
def bothBody : CreateEnvBody :=
  { name := "e", image := some "alpine", dockerfile := some "FROM alpine",
    buildFiles := none, command := none, cpu := none, memory := none,
    ports := none, env := none, mounts := none }

/-- C6 counterexample: a request supplying both image and dockerfile does
NOT fail — the zod refine only demands `image || dockerfile` and the
service only rejects when neither is present — and the stored version 1
has both populated. -/
theorem c6_both_supplied_accepted :
    (routeCreateEnvironment 1 bothBody 0 0 0 emptySt).1.isOk = true ∧
    ((routeCreateEnvironment 1 bothBody 0 0 0 emptySt).2.findVersion 0).map
      (fun v => (v.image, v.dockerfile)) =
        some (some "alpine", some "FROM alpine") :=
  ⟨by decide, by decide⟩

theorem c6_create_env_accepts_iff_witness :
    (schemaFieldsOk bothBody = true ∧
      (emptySt.environments.filter (fun r => r.user_id == 1)).length < 5 ∧
      (emptySt.environments.any (fun r =>
        r.user_id == 1 && r.name == bothBody.name)) = false) ∧
    (((routeCreateEnvironment 1 bothBody 0 0 0 emptySt).1.isOk = true ↔
        (bothBody.image.isSome = true ∨ bothBody.dockerfile.isSome = true)) ∧
      (∀ env ver st',
        routeCreateEnvironment 1 bothBody 0 0 0 emptySt = (.ok (env, ver), st') →
        ver.image = bothBody.image ∧ ver.dockerfile = bothBody.dockerfile)) :=
  ⟨⟨by decide, by decide, by decide⟩,
    c6_create_env_accepts_iff 1 bothBody 0 0 0 emptySt
      (by decide) (by decide) (by decide)⟩

/-! ## C8: exactly-once log persistence -/

/-- A runtime log event. -/
def oneLogEvent : DockerLogEvent :=
  { log_type := "stdout", text := "hello", timestamp := 3 }

/-- C8 at the failing input: one runtime log event of sandbox 7, observed
while one WebSocket log viewer is connected, ends up as **two**
`sandbox_logs` rows — the collector inserts one and the viewer tail
(`websocket.ts`, `streamContainerLogs`) inserts another — where the claim
demands exactly one row regardless of the number of viewers.  With zero
viewers the count is the claimed one. -/
theorem c8_event_persisted_twice :
    ((deliverLogEvent 7 oneLogEvent 1 emptySt).logs.filter
      (fun l => l.sandbox_id == 7)).length = 2 ∧
    ((deliverLogEvent 7 oneLogEvent 0 emptySt).logs.filter
      (fun l => l.sandbox_id == 7)).length = 1 := by
  constructor
  · simp [deliverLogEvent, collectLogsEvent, wsViewerLogEvent, enforceRetention, emptySt]
  · simp [deliverLogEvent, collectLogsEvent, wsViewerLogEvent, enforceRetention, emptySt]

/-! ## C7: secret encryption round-trip, tamper and wrong-key failure -/

/-- C7: with a 24-byte nonce, decrypting an encrypted secret under the
same master key recovers the plaintext; replacing any byte of the stored
ciphertext (nonce or box — a bit flip is such a replacement) makes
decryption fail; and decrypting under a different master key fails. -/
theorem c7_encrypt_decrypt_roundtrip_tamper (m nonce key key' : List Nat)
    (hn : nonce.length = 24) :
    decrypt (encrypt m nonce key) key = some m ∧
    (∀ i v, (hi : i < (encrypt m nonce key).length) →
      v ≠ (encrypt m nonce key)[i] →
      decrypt ((encrypt m nonce key).set i v) key = none) ∧
    (key' ≠ key → decrypt (encrypt m nonce key) key' = none) :=
  ⟨decrypt_encrypt m nonce key hn,
   fun i v hi hv => decrypt_tamper m nonce key hn i v hi hv,
   fun hk => decrypt_wrong_key m nonce key key' hn hk⟩

theorem c7_encrypt_decrypt_witness :
    ((List.replicate 24 0 : List Nat).length = 24) ∧
    (decrypt (encrypt [7, 8] (List.replicate 24 0) [1]) [1] = some [7, 8] ∧
     (∀ i v, (hi : i < (encrypt [7, 8] (List.replicate 24 0) [1]).length) →
       v ≠ (encrypt [7, 8] (List.replicate 24 0) [1])[i] →
       decrypt ((encrypt [7, 8] (List.replicate 24 0) [1]).set i v) [1] = none) ∧
     (([2] : List Nat) ≠ [1] →
       decrypt (encrypt [7, 8] (List.replicate 24 0) [1]) [2] = none)) :=
  ⟨by decide,
    c7_encrypt_decrypt_roundtrip_tamper [7, 8] (List.replicate 24 0) [1] [2] (by decide)⟩

/-! ## C9: log-stream frame decoding -/

theorem be4_decode {n : Nat} (h : n < 4294967296) :
    ((n / 16777216 % 256 * 256 + n / 65536 % 256) * 256 + n / 256 % 256) * 256
      + n % 256 = n := by
  omega

/-- Decoding the encoding of a sequence of well-formed frames yields
exactly one event per frame, in frame order, each the event of its own
frame. -/
theorem demuxLogs_encodeFrames (fs : List LogFrame)
    (h : ∀ f ∈ fs, f.payload.length < 4294967296) :
    demuxLogs (encodeFrames fs) = fs.map specFrameEvent := by
  induction fs with
  | nil => simp [encodeFrames, demuxLogs]
  | cons f rest ih =>
    have hf : f.payload.length < 4294967296 := h f (by simp)
    have henc : encodeFrames (f :: rest) =
        f.streamType :: 0 :: 0 :: 0 :: f.payload.length / 16777216 % 256 ::
          f.payload.length / 65536 % 256 :: f.payload.length / 256 % 256 ::
          f.payload.length % 256 :: (f.payload ++ encodeFrames rest) := by
      simp [encodeFrames, encodeFrame, be4]
    rw [henc]
    rw [demuxLogs]
    simp only [be4_decode hf]
    rw [if_pos (by simp)]
    rw [List.take_left, List.drop_left]
    rw [ih (fun g hg => h g (by simp [hg]))]
    rfl

/-- C9 (amended): for every byte sequence that is a concatenation of
well-formed frames, `streamLogs` yields exactly one event per frame, in
frame order, with stream `stdout` iff header byte 0 equals 1, text equal
to the payload with its timestamp prefix (when present) stripped **and
trailing whitespace trimmed**, and the timestamp parsed from the prefix. -/
theorem c9_streamlogs_frame_decoding (fs : List LogFrame)
    (h : ∀ f ∈ fs, f.payload.length < 4294967296) :
    demuxLogs (encodeFrames fs) = fs.map specFrameEvent :=
  demuxLogs_encodeFrames fs h

/-- A stdout frame whose payload `"hi\n"` ends in a newline. -/
def trailingNlFrame : LogFrame := { streamType := 1, payload := [104, 105, 10] }

/-- C9 counterexample: the claim as written (text = stripped payload, no
trimming) fails on a payload with a trailing newline — the code calls
`text.trimEnd()`, so the emitted text drops the newline. -/
theorem c9_no_trim_refuted :
    demuxLogs (encodeFrames [trailingNlFrame]) ≠
      [claimFrameEventNoTrim trailingNlFrame] := by
  rw [demuxLogs_encodeFrames [trailingNlFrame] (by decide)]
  decide

theorem c9_streamlogs_frame_decoding_witness :
    (∀ f ∈ [trailingNlFrame], f.payload.length < 4294967296) ∧
    demuxLogs (encodeFrames [trailingNlFrame]) =
      [trailingNlFrame].map specFrameEvent :=
  ⟨by decide, c9_streamlogs_frame_decoding [trailingNlFrame] (by decide)⟩

/-! ## C10: idempotence of log redaction

The plan: a replacement pass `scanRepl p` leaves no `p`-match behind
(`scanRepl_self_clean`), and a pass with any pattern of the set never
creates a match of another pattern of the set (`scanRepl_keeps_clean`); so
after the seven passes of `redactChars` no pattern matches anywhere, and a
second `redactChars` is the identity.  The crux is that a match in
`a ++ RED ++ out` that starts inside the replaced block is impossible (no
literal survives next to `[`, `]` or inside `REDACTED`), and one that
starts in `a` maps to a match of the original string at the same position,
because the block's first character `[` and the replaced region's first
character are both non-space, which is all the final `\S+`/`\w+=\S+`
continuation looks at across the boundary. -/

/-- The literal of a pattern. -/
def patLit : Pat → List Char
  | .litRun lit _ => lit
  | .keyVal lit => lit

/-- The character class of a pattern's final greedy run. -/
def patCls : Pat → (Char → Bool)
  | .litRun _ cls => cls
  | .keyVal _ => jsNonSpace

/-- Some position shared by `lit` and `x` where the characters differ
case-insensitively: there the literal can never start, whatever follows
`x`. -/
def hasMismatch (lit x : List Char) : Bool :=
  (lit.zip x).any (fun pr => !(eqCI pr.1 pr.2))

/-- No match of `p` anywhere in `s`. -/
def Clean (p : Pat) (s : List Char) : Prop :=
  ∀ i, matchAt p (s.drop i) = none

/-- The decidable/elementary facts about each of the seven patterns that
the idempotence proof uses. -/
structure GoodPat (p : Pat) : Prop where
  lit_ne : patLit p ≠ []
  red_mismatch : ∀ i, i < 10 → hasMismatch (patLit p) (RED.drop i) = true
  head_not_space : jsIsSpace (jsLower (patLit p).headI) = false
  no_bracket : (patLit p).all (fun c => !(eqCI c '[')) = true
  cls_bracket : patCls p '[' = true → ∀ d, jsNonSpace d = true → patCls p d = true

theorem runLen_le (cls : Char → Bool) (l : List Char) : runLen cls l ≤ l.length := by
  induction l with
  | nil => simp [runLen]
  | cons c t ih =>
    simp only [runLen, List.length_cons]
    split
    · omega
    · omega

theorem ciStarts_len {lit l : List Char} (h : ciStarts lit l = true) :
    lit.length ≤ l.length := by
  induction lit generalizing l with
  | nil => simp
  | cons a as ih =>
    cases l with
    | nil => simp [ciStarts] at h
    | cons b bs =>
      simp only [ciStarts, Bool.and_eq_true] at h
      simpa using ih h.2

theorem ciStarts_nil {lit : List Char} (h : lit ≠ []) : ciStarts lit [] = false := by
  cases lit with
  | nil => exact absurd rfl h
  | cons a as => rfl

theorem ciStarts_append_left {lit x : List Char} (u : List Char)
    (h : lit.length ≤ x.length) : ciStarts lit (x ++ u) = ciStarts lit x := by
  induction lit generalizing x with
  | nil => simp [ciStarts]
  | cons a as ih =>
    cases x with
    | nil => simp at h
    | cons b bs =>
      simp only [List.cons_append, ciStarts, List.append_eq]
      rw [ih (by simpa using h)]

theorem ciStarts_of_hasMismatch {lit x : List Char}
    (h : hasMismatch lit x = true) (u : List Char) :
    ciStarts lit (x ++ u) = false := by
  induction lit generalizing x with
  | nil => simp [hasMismatch] at h
  | cons a as ih =>
    cases x with
    | nil => simp [hasMismatch] at h
    | cons b bs =>
      simp only [hasMismatch, List.zip_cons_cons, List.any_cons, Bool.or_eq_true] at h
      simp only [List.cons_append, ciStarts, List.append_eq]
      rcases h with h | h
      · simp only [Bool.not_eq_true'] at h
        rw [h]
        rfl
      · rw [ih h]
        simp

theorem ciStarts_mid {lit x : List Char} {d : Char} {y : List Char}
    (h : ciStarts lit (x ++ d :: y) = true) (hlen : x.length < lit.length) :
    ∃ c ∈ lit, eqCI c d = true := by
  induction lit generalizing x with
  | nil => simp at hlen
  | cons a as ih =>
    cases x with
    | nil =>
      simp only [List.nil_append, ciStarts, Bool.and_eq_true] at h
      exact ⟨a, by simp, h.1⟩
    | cons b bs =>
      simp only [List.cons_append, ciStarts, Bool.and_eq_true] at h
      obtain ⟨c, hc, he⟩ := ih h.2 (by simpa using hlen)
      exact ⟨c, by simp [hc], he⟩

theorem ciStarts_head {lit : List Char} {c : Char} {t : List Char}
    (hne : lit ≠ []) (h : ciStarts lit (c :: t) = true) :
    eqCI lit.headI c = true := by
  cases lit with
  | nil => exact absurd rfl hne
  | cons a as =>
    simp only [ciStarts, Bool.and_eq_true] at h
    simpa using h.1

theorem matchAt_none_of_starts_false {p : Pat} {l : List Char}
    (h : ciStarts (patLit p) l = false) : matchAt p l = none := by
  cases p with
  | litRun lit cls =>
    simp only [patLit] at h
    simp [matchAt, h]
  | keyVal lit =>
    simp only [patLit] at h
    simp [matchAt, h]

theorem matchAt_nil {p : Pat} (hp : patLit p ≠ []) : matchAt p [] = none :=
  matchAt_none_of_starts_false (ciStarts_nil hp)

/-- A whitespace character folds to itself. -/
theorem jsLower_of_space {d : Char} (h : jsIsSpace d = true) : jsLower d = d := by
  simp only [jsIsSpace, Bool.or_eq_true, beq_iff_eq] at h
  rcases h with ((((h | h) | h) | h) | h) | h <;> subst h <;> decide

theorem head_nonspace_of_eqCI {p : Pat} (hp : GoodPat p) {d : Char}
    (h : eqCI (patLit p).headI d = true) : jsNonSpace d = true := by
  have hl : jsLower (patLit p).headI = jsLower d := by
    simpa [eqCI] using h
  cases hd : jsIsSpace d with
  | false => simp [jsNonSpace, hd]
  | true =>
    exfalso
    have hhead := hp.head_not_space
    rw [hl, jsLower_of_space hd, hd] at hhead
    exact absurd hhead (by simp)

theorem matchAt_head_nonspace {p : Pat} {l : List Char} {n : Nat}
    (hp : GoodPat p) (h : matchAt p l = some n) :
    ∃ c t, l = c :: t ∧ jsNonSpace c = true := by
  have hst : ciStarts (patLit p) l = true := by
    by_contra hc
    rw [matchAt_none_of_starts_false (Bool.not_eq_true _ ▸ hc)] at h
    exact absurd h (by simp)
  cases l with
  | nil => rw [ciStarts_nil hp.lit_ne] at hst; exact absurd hst (by simp)
  | cons c t =>
    exact ⟨c, t, rfl, head_nonspace_of_eqCI hp (ciStarts_head hp.lit_ne hst)⟩

theorem scanRepl_nil (p : Pat) : scanRepl p [] = [] := by
  simp [scanRepl]

theorem scanRepl_cons_some {p : Pat} {c : Char} {t : List Char} {n : Nat}
    (hm : matchAt p (c :: t) = some n) :
    scanRepl p (c :: t) = RED ++ scanRepl p ((c :: t).drop n) := by
  rw [scanRepl]
  split
  · rename_i m hm2
    rw [hm] at hm2
    injection hm2 with hm2
    rw [hm2]
  · rename_i hm2
    rw [hm] at hm2
    exact absurd hm2 (by simp)

theorem scanRepl_cons_none {p : Pat} {c : Char} {t : List Char}
    (hm : matchAt p (c :: t) = none) :
    scanRepl p (c :: t) = c :: scanRepl p t := by
  rw [scanRepl]
  split
  · rename_i m hm2
    rw [hm] at hm2
    exact absurd hm2 (by simp)
  · rfl

theorem Clean.tail {p : Pat} {c : Char} {t : List Char}
    (h : Clean p (c :: t)) : Clean p t := fun i => by
  have := h (i + 1)
  simpa using this

theorem Clean.head {p : Pat} {c : Char} {t : List Char}
    (h : Clean p (c :: t)) : matchAt p (c :: t) = none := by
  have := h 0
  simpa using this

theorem Clean.cons {p : Pat} {c : Char} {t : List Char}
    (hm : matchAt p (c :: t) = none) (h : Clean p t) : Clean p (c :: t) := by
  intro i
  cases i with
  | zero => simpa using hm
  | succ j => simpa using h j

theorem Clean.drop {p : Pat} {s : List Char} (h : Clean p s) (k : Nat) :
    Clean p (s.drop k) := fun i => by
  rw [List.drop_drop]
  exact h (k + i)

theorem Clean.nil {p : Pat} (hp : GoodPat p) : Clean p [] := fun i => by
  simp only [List.drop_nil]
  exact matchAt_nil hp.lit_ne

theorem runLen_cons (cls : Char → Bool) (c : Char) (t : List Char) :
    runLen cls (c :: t) = if cls c = true then runLen cls t + 1 else 0 := rfl

theorem take_runLen_all (cls : Char → Bool) (l : List Char) :
    ∀ a ∈ l.take (runLen cls l), cls a = true := by
  induction l with
  | nil => simp
  | cons c t ih =>
    rw [runLen_cons]
    by_cases hc : cls c = true
    · rw [if_pos hc]
      intro a ha
      rw [List.take_succ_cons] at ha
      rcases List.mem_cons.mp ha with h | h
      · rw [h]; exact hc
      · exact ih a h
    · rw [if_neg hc]
      simp

theorem runLen_append_stop {cls : Char → Bool} {u : List Char} {d : Char}
    {v : List Char} (hu : ∀ a ∈ u, cls a = true) (hd : cls d = false) :
    runLen cls (u ++ d :: v) = u.length := by
  induction u with
  | nil => simp [runLen_cons, hd]
  | cons a t ih =>
    rw [List.cons_append, runLen_cons, if_pos (hu a (by simp))]
    rw [ih (fun b hb => hu b (by simp [hb]))]
    simp

theorem matchAt_litRun_some_elim {lit : List Char} {cls : Char → Bool}
    {l : List Char} (h : matchAt (.litRun lit cls) l ≠ none) :
    ciStarts lit l = true ∧ ∃ c v, l.drop lit.length = c :: v ∧ cls c = true := by
  simp only [matchAt] at h
  split at h
  · rename_i hst
    split at h
    · exact absurd rfl h
    · rename_i hr
      refine ⟨hst, ?_⟩
      cases hd : l.drop lit.length with
      | nil => rw [hd] at hr; simp [runLen] at hr
      | cons c v =>
        rw [hd, runLen_cons] at hr
        by_cases hc : cls c = true
        · exact ⟨c, v, rfl, hc⟩
        · rw [if_neg hc] at hr
          exact absurd rfl hr
  · exact absurd rfl h

theorem matchAt_litRun_some_intro {lit : List Char} {cls : Char → Bool}
    {l : List Char} {c : Char} {v : List Char}
    (hst : ciStarts lit l = true) (hd : l.drop lit.length = c :: v)
    (hc : cls c = true) : matchAt (.litRun lit cls) l ≠ none := by
  simp only [matchAt, hst, if_true, hd, runLen_cons, hc]
  simp

theorem matchAt_keyVal_some_elim {lit : List Char} {l : List Char}
    (h : matchAt (.keyVal lit) l ≠ none) :
    ciStarts lit l = true ∧ ∃ u c v, l.drop lit.length = u ++ '=' :: c :: v ∧
      u ≠ [] ∧ (∀ a ∈ u, jsIsWord a = true) ∧ jsNonSpace c = true := by
  simp only [matchAt] at h
  split at h
  · rename_i hst
    split at h
    · exact absurd rfl h
    · rename_i hw
      refine ⟨hst, ?_⟩
      split at h
      next rest heq =>
        split at h
        · exact absurd rfl h
        · next hr =>
          cases hc : rest with
          | nil => rw [hc] at hr; simp [runLen] at hr
          | cons c v =>
            rw [hc] at heq
            by_cases hcc : jsNonSpace c = true
            · refine ⟨(l.drop lit.length).take (runLen jsIsWord (l.drop lit.length)),
                c, v, ?_, ?_,
                fun a ha => take_runLen_all jsIsWord (l.drop lit.length) a ha, hcc⟩
              · have hdd : (l.drop lit.length).drop
                    (runLen jsIsWord (l.drop lit.length)) = '=' :: c :: v := by
                  rw [List.drop_drop]
                  exact heq
                conv_lhs => rw [← List.take_append_drop
                  (runLen jsIsWord (l.drop lit.length)) (l.drop lit.length)]
                rw [hdd]
              · have hlen : ((l.drop lit.length).take
                    (runLen jsIsWord (l.drop lit.length))).length =
                    runLen jsIsWord (l.drop lit.length) := by
                  rw [List.length_take]
                  exact Nat.min_eq_left (runLen_le _ _)
                intro hnil
                rw [hnil] at hlen
                simp only [List.length_nil] at hlen
                exact hw hlen.symm
            · rw [hc, runLen_cons, if_neg hcc] at hr
              exact absurd rfl hr
      next hne => exact absurd rfl h
  · exact absurd rfl h

theorem matchAt_keyVal_some_intro {lit : List Char} {l u : List Char}
    {c : Char} {v : List Char}
    (hst : ciStarts lit l = true) (hd : l.drop lit.length = u ++ '=' :: c :: v)
    (hu : u ≠ []) (hw : ∀ a ∈ u, jsIsWord a = true) (hc : jsNonSpace c = true) :
    matchAt (.keyVal lit) l ≠ none := by
  have hwl : runLen jsIsWord (l.drop lit.length) = u.length := by
    rw [hd]
    exact runLen_append_stop hw (by decide)
  have hz : l.drop (lit.length + u.length) = '=' :: c :: v := by
    rw [← List.drop_drop, hd]
    exact List.drop_left u _
  simp only [matchAt, hst, if_true, hwl, hz]
  rw [if_neg (by simpa using hu)]
  simp [runLen_cons, hc]

/-- If the literal contains no character that case-folds to the bracket,
a match whose literal would have to cover the bracket position is
impossible, so the literal fits inside the part before the bracket. -/
theorem lit_le_of_starts_bracket {lit a y : List Char}
    (hnb : lit.all (fun c => !(eqCI c '[')) = true)
    (hst : ciStarts lit (a ++ '[' :: y) = true) :
    lit.length ≤ a.length := by
  by_contra hlt
  push_neg at hlt
  obtain ⟨ch, hch, he⟩ := ciStarts_mid hst hlt
  rw [List.all_eq_true] at hnb
  have h2 := hnb ch hch
  rw [he] at h2
  simp at h2

/-- Boundary lemma: a match through a `[` boundary character survives
replacing the bracket and everything after it by any other non-space
continuation. -/
theorem matchAt_boundary {p : Pat} (hp : GoodPat p) {a y z : List Char} {d : Char}
    (hd : jsNonSpace d = true) (h : matchAt p (a ++ '[' :: y) ≠ none) :
    matchAt p (a ++ d :: z) ≠ none := by
  cases p with
  | litRun lit cls =>
    obtain ⟨hst, c, v, hdrop, hc⟩ := matchAt_litRun_some_elim h
    have hll : lit.length ≤ a.length := lit_le_of_starts_bracket hp.no_bracket hst
    rw [ciStarts_append_left _ hll] at hst
    have hst2 : ciStarts lit (a ++ d :: z) = true := by
      rw [ciStarts_append_left _ hll]
      exact hst
    rw [List.drop_append_of_le_length hll] at hdrop
    have hdrop2 : (a ++ d :: z).drop lit.length = a.drop lit.length ++ d :: z :=
      List.drop_append_of_le_length hll
    cases hA : a.drop lit.length with
    | nil =>
      rw [hA] at hdrop
      simp only [List.nil_append] at hdrop
      have hcbr : c = '[' := by
        injection hdrop with h1 _
        exact h1.symm
      have hclsd : cls d = true := hp.cls_bracket (hcbr ▸ hc) d hd
      have hnew : (a ++ d :: z).drop lit.length = d :: z := by
        rw [hdrop2, hA]
        rfl
      exact matchAt_litRun_some_intro hst2 hnew hclsd
    | cons e w =>
      rw [hA] at hdrop
      simp only [List.cons_append] at hdrop
      have hec : e = c := (List.cons_eq_cons.mp hdrop).1
      have hnew : (a ++ d :: z).drop lit.length = e :: (w ++ d :: z) := by
        rw [hdrop2, hA]
        rfl
      exact matchAt_litRun_some_intro hst2 hnew (hec ▸ hc)
  | keyVal lit =>
    obtain ⟨hst, u, cch, v, hdrop, hu, hword, hcch⟩ := matchAt_keyVal_some_elim h
    have hll : lit.length ≤ a.length := lit_le_of_starts_bracket hp.no_bracket hst
    rw [ciStarts_append_left _ hll] at hst
    have hst2 : ciStarts lit (a ++ d :: z) = true := by
      rw [ciStarts_append_left _ hll]
      exact hst
    rw [List.drop_append_of_le_length hll] at hdrop
    have hdrop2 : (a ++ d :: z).drop lit.length = a.drop lit.length ++ d :: z :=
      List.drop_append_of_le_length hll
    set A := a.drop lit.length with hAdef
    have hk1 : u.length + 1 ≤ A.length := by
      by_contra hno
      push_neg at hno
      have hAle : A.length ≤ u.length := by omega
      have hdr := congrArg (List.drop A.length) hdrop
      rw [List.drop_append_of_le_length (le_refl A.length), List.drop_length,
        List.drop_append_of_le_length hAle] at hdr
      simp only [List.nil_append] at hdr
      cases hud : u.drop A.length with
      | nil =>
        rw [hud] at hdr
        simp only [List.nil_append] at hdr
        injection hdr with h1 _
        exact absurd h1 (by decide)
      | cons e w =>
        rw [hud] at hdr
        simp only [List.cons_append] at hdr
        injection hdr with h1 _
        have hew : e ∈ u := List.drop_subset A.length u (by rw [hud]; exact List.mem_cons_self e w)
        have hwd := hword e hew
        rw [← h1] at hwd
        exact absurd hwd (by decide)
    have hA1 : A.take (u.length + 1) = u ++ ['='] := by
      have h1 := congrArg (List.take (u.length + 1)) hdrop
      rw [List.take_append_of_le_length hk1] at h1
      rw [h1]
      have h2 : (u ++ '=' :: cch :: v).take (u.length + 1) = u ++ ('=' :: cch :: v).take 1 :=
        List.take_append 1
      rw [h2]
      rfl
    have hAsplit : A = u ++ '=' :: A.drop (u.length + 1) := by
      conv_lhs => rw [← List.take_append_drop (u.length + 1) A]
      rw [hA1, List.append_assoc]
      rfl
    cases hT : A.drop (u.length + 1) with
    | nil =>
      rw [hT] at hAsplit
      refine @matchAt_keyVal_some_intro lit (a ++ d :: z) u d z hst2 ?_ hu hword hd
      rw [hdrop2, hAsplit]
      simp
    | cons e w =>
      rw [hT] at hAsplit
      have he : e = cch := by
        rw [hAsplit, List.append_assoc] at hdrop
        have h2 := List.append_cancel_left hdrop
        simp only [List.cons_append] at h2
        exact (List.cons_eq_cons.mp (List.cons_eq_cons.mp h2).2).1
      subst he
      refine @matchAt_keyVal_some_intro lit (a ++ d :: z) u e (w ++ d :: z)
        hst2 ?_ hu hword hcch
      rw [hdrop2, hAsplit]
      simp

/-- Nothing matches starting at or inside the replacement text. -/
theorem clean_red_append {p : Pat} (hp : GoodPat p) {Z : List Char}
    (hZ : Clean p Z) : Clean p (RED ++ Z) := by
  have hR : RED.length = 10 := by decide
  intro i
  by_cases hlt : i < 10
  · have hdr : (RED ++ Z).drop i = RED.drop i ++ Z :=
      List.drop_append_of_le_length (by omega)
    rw [hdr]
    exact matchAt_none_of_starts_false (ciStarts_of_hasMismatch (hp.red_mismatch i hlt) Z)
  · have hi : i = RED.length + (i - 10) := by omega
    rw [hi, List.drop_append]
    exact hZ (i - 10)

/-- Shape of a replacement pass: either the input was returned unchanged,
or the input splits as a prefix plus a matching suffix and the output is
that prefix followed by the replacement text. -/
theorem scanRepl_shape (p : Pat) (s : List Char) :
    scanRepl p s = s ∨
    ∃ x d r n Z, s = x ++ d :: r ∧ matchAt p (d :: r) = some n ∧
      scanRepl p s = x ++ RED ++ Z := by
  induction s with
  | nil =>
    left
    exact scanRepl_nil p
  | cons c t ih =>
    cases hm : matchAt p (c :: t) with
    | some n =>
      right
      refine ⟨[], c, t, n, scanRepl p ((c :: t).drop n), by simp, hm, ?_⟩
      rw [scanRepl_cons_some hm]
      simp
    | none =>
      rw [scanRepl_cons_none hm]
      rcases ih with hid | ⟨x, d, r, n, Z, hts, hmm, hscan⟩
      · left
        rw [hid]
      · right
        refine ⟨c :: x, d, r, n, Z, by rw [hts]; rfl, hmm, ?_⟩
        rw [hscan]
        simp

/-- If nothing matched at the head of `c :: t`, then nothing matches at the
head of `c ::` (any replacement pass applied to `t`). -/
theorem matchAt_cons_scanRepl_none {p q : Pat} (hp : GoodPat p) (hq : GoodPat q)
    {c : Char} {t : List Char} (h0 : matchAt p (c :: t) = none) :
    matchAt p (c :: scanRepl q t) = none := by
  rcases scanRepl_shape q t with hid | ⟨x, d, r, n, Z, hts, hm, hscan⟩
  · rw [hid]
    exact h0
  · rw [hscan]
    by_contra hne
    have hne2 : matchAt p ((c :: x) ++ '[' :: ("REDACTED]".data ++ Z)) ≠ none := by
      have hre : (c :: x) ++ '[' :: ("REDACTED]".data ++ Z) = c :: (x ++ RED ++ Z) := by
        have hRED : RED = '[' :: "REDACTED]".data := by decide
        rw [hRED]
        simp
      rw [hre]
      exact hne
    obtain ⟨c', t', heq, hns⟩ := matchAt_head_nonspace hq hm
    have hdc : d = c' := (List.cons_eq_cons.mp heq).1
    rw [← hdc] at hns
    have hb := @matchAt_boundary p hp (c :: x) ("REDACTED]".data ++ Z) r d hns hne2
    have hback : (c :: x) ++ d :: r = c :: t := by
      rw [hts]
      rfl
    rw [hback] at hb
    exact hb h0

/-- A replacement pass leaves no match of its own pattern (bounded form). -/
theorem clean_scanRepl_self_aux {p : Pat} (hp : GoodPat p) :
    ∀ N s, List.length s ≤ N → Clean p (scanRepl p s) := by
  intro N
  induction N with
  | zero =>
    intro s hs
    have hnil : s = [] := List.eq_nil_of_length_eq_zero (Nat.le_zero.mp hs)
    rw [hnil, scanRepl_nil]
    exact Clean.nil hp
  | succ N ih =>
    intro s hs
    cases s with
    | nil =>
      rw [scanRepl_nil]
      exact Clean.nil hp
    | cons c t =>
      cases hm : matchAt p (c :: t) with
      | some n =>
        rw [scanRepl_cons_some hm]
        have hn := matchAt_pos hm
        have hlen : ((c :: t).drop n).length ≤ N := by
          simp only [List.length_drop, List.length_cons]
          simp only [List.length_cons] at hs
          omega
        exact clean_red_append hp (ih _ hlen)
      | none =>
        rw [scanRepl_cons_none hm]
        have hc : Clean p (scanRepl p t) := ih t (by
          simp only [List.length_cons] at hs
          omega)
        exact Clean.cons (matchAt_cons_scanRepl_none hp hp hm) hc

/-- A replacement pass leaves no match of its own pattern. -/
theorem clean_scanRepl_self {p : Pat} (hp : GoodPat p) (s : List Char) :
    Clean p (scanRepl p s) :=
  clean_scanRepl_self_aux hp s.length s (le_refl _)

/-- A replacement pass for another pattern preserves matchlessness
(bounded form). -/
theorem clean_scanRepl_lift_aux {p q : Pat} (hp : GoodPat p) (hq : GoodPat q) :
    ∀ N s, List.length s ≤ N → Clean p s → Clean p (scanRepl q s) := by
  intro N
  induction N with
  | zero =>
    intro s hs _
    have hnil : s = [] := List.eq_nil_of_length_eq_zero (Nat.le_zero.mp hs)
    rw [hnil, scanRepl_nil]
    exact Clean.nil hp
  | succ N ih =>
    intro s hs hcl
    cases s with
    | nil =>
      rw [scanRepl_nil]
      exact Clean.nil hp
    | cons c t =>
      cases hm : matchAt q (c :: t) with
      | some n =>
        rw [scanRepl_cons_some hm]
        have hn := matchAt_pos hm
        have hlen : ((c :: t).drop n).length ≤ N := by
          simp only [List.length_drop, List.length_cons]
          simp only [List.length_cons] at hs
          omega
        exact clean_red_append hp (ih _ hlen (hcl.drop n))
      | none =>
        rw [scanRepl_cons_none hm]
        refine Clean.cons (matchAt_cons_scanRepl_none hp hq hcl.head) ?_
        exact ih t (by
          simp only [List.length_cons] at hs
          omega) hcl.tail

/-- A replacement pass for another pattern preserves matchlessness. -/
theorem clean_scanRepl_lift {p q : Pat} (hp : GoodPat p) (hq : GoodPat q)
    {s : List Char} (h : Clean p s) : Clean p (scanRepl q s) :=
  clean_scanRepl_lift_aux hp hq s.length s (le_refl _) h

/-- A replacement pass is the identity on matchless input. -/
theorem scanRepl_id_of_clean {p : Pat} {s : List Char} (h : Clean p s) :
    scanRepl p s = s := by
  induction s with
  | nil => exact scanRepl_nil p
  | cons c t ih => rw [scanRepl_cons_none h.head, ih h.tail]

theorem good_patSecretEq : GoodPat patSecretEq :=
  ⟨by decide, by decide, by decide, by decide, fun _ _ hd => hd⟩

theorem good_patApiKeyEq : GoodPat patApiKeyEq :=
  ⟨by decide, by decide, by decide, by decide, fun _ _ hd => hd⟩

theorem good_patPasswordEq : GoodPat patPasswordEq :=
  ⟨by decide, by decide, by decide, by decide, fun _ _ hd => hd⟩

theorem good_patTokenEq : GoodPat patTokenEq :=
  ⟨by decide, by decide, by decide, by decide, fun _ _ hd => hd⟩

theorem good_patPrivateKeyEq : GoodPat patPrivateKeyEq :=
  ⟨by decide, by decide, by decide, by decide, fun _ _ hd => hd⟩

theorem good_patSkLive : GoodPat patSkLive :=
  ⟨by decide, by decide, by decide, by decide, fun h => absurd h (by decide)⟩

theorem good_patSkTest : GoodPat patSkTest :=
  ⟨by decide, by decide, by decide, by decide, fun h => absurd h (by decide)⟩

/-- After all seven passes, no pattern matches anywhere, so running the
seven passes again changes nothing. -/
theorem redactChars_idempotent (s : List Char) :
    redactChars (redactChars s) = redactChars s := by
  have g1 := good_patSecretEq
  have g2 := good_patApiKeyEq
  have g3 := good_patPasswordEq
  have g4 := good_patTokenEq
  have g5 := good_patPrivateKeyEq
  have g6 := good_patSkLive
  have g7 := good_patSkTest
  have h1 : Clean patSecretEq (redactChars s) :=
    clean_scanRepl_lift g1 g7 (clean_scanRepl_lift g1 g6 (clean_scanRepl_lift g1 g5
      (clean_scanRepl_lift g1 g4 (clean_scanRepl_lift g1 g3 (clean_scanRepl_lift g1 g2
        (clean_scanRepl_self g1 s))))))
  have h2 : Clean patApiKeyEq (redactChars s) :=
    clean_scanRepl_lift g2 g7 (clean_scanRepl_lift g2 g6 (clean_scanRepl_lift g2 g5
      (clean_scanRepl_lift g2 g4 (clean_scanRepl_lift g2 g3
        (clean_scanRepl_self g2 _)))))
  have h3 : Clean patPasswordEq (redactChars s) :=
    clean_scanRepl_lift g3 g7 (clean_scanRepl_lift g3 g6 (clean_scanRepl_lift g3 g5
      (clean_scanRepl_lift g3 g4 (clean_scanRepl_self g3 _))))
  have h4 : Clean patTokenEq (redactChars s) :=
    clean_scanRepl_lift g4 g7 (clean_scanRepl_lift g4 g6 (clean_scanRepl_lift g4 g5
      (clean_scanRepl_self g4 _)))
  have h5 : Clean patPrivateKeyEq (redactChars s) :=
    clean_scanRepl_lift g5 g7 (clean_scanRepl_lift g5 g6 (clean_scanRepl_self g5 _))
  have h6 : Clean patSkLive (redactChars s) :=
    clean_scanRepl_lift g6 g7 (clean_scanRepl_self g6 _)
  have h7 : Clean patSkTest (redactChars s) :=
    clean_scanRepl_self g7 _
  have hun : redactChars (redactChars s) =
      scanRepl patSkTest (scanRepl patSkLive (scanRepl patPrivateKeyEq
        (scanRepl patTokenEq (scanRepl patPasswordEq (scanRepl patApiKeyEq
          (scanRepl patSecretEq (redactChars s))))))) := rfl
  rw [hun, scanRepl_id_of_clean h1, scanRepl_id_of_clean h2, scanRepl_id_of_clean h3,
    scanRepl_id_of_clean h4, scanRepl_id_of_clean h5, scanRepl_id_of_clean h6,
    scanRepl_id_of_clean h7]

/-- C10: the log redaction function `redactSecrets` is idempotent: for
every string `s`, `redactSecrets (redactSecrets s) = redactSecrets s` —
the replacement text `[REDACTED]` never itself matches any of the seven
configured patterns and never creates a new match by juxtaposition with
the surrounding text. -/
theorem c10_redact_idempotent (s : String) :
    redactSecrets (redactSecrets s) = redactSecrets s :=
  congrArg String.mk (redactChars_idempotent s.data)

end SandboxPlatform
